import Mathlib

/-!
Verification development for the documentation-to-source consistency
checker `check.py`.  The program scans markdown files for fenced
` ```rust ` code blocks, deduplicates the block texts in a dict,
sorts the (path, offset, text) triples, compiles one combined regular
expression `(//[!/][ ]?line1\n//[!/][ ]?line2...)|(...)` with one
capture group per example, scans every rust source file with
`finditer`, records which groups matched, and finally reports every
example whose group never matched, exiting with status 1 when at
least one is missing.

Texts are modelled as `List Char`; the regex engine's behaviour on the
concrete patterns the program builds (leftmost non-overlapping matches,
alternatives tried left to right, `[ ]?` greedy) is modelled by explicit
scanning functions.  All definitions are fuel-free or fuelled structural
recursions so that concrete runs evaluate inside the kernel.
-/

namespace Check

/-- Shorthand for the character-list representation of Python strings. -/
abbrev Str := List Char

/-- The backtick character (code point 96). -/
def tick : Char := Char.ofNat 96

/-- The fence opener `"```rust"` of `find_rust_examples`. -/
def opener : Str := "```rust".data

/-- Python `s.split("\n")`: split into lines at newline characters.
Never returns the empty list. -/
def splitLines : List Char → List (List Char)
  | [] => [[]]
  | c :: rest =>
    if c = '\n' then [] :: splitLines rest
    else
      match splitLines rest with
      | [] => [[c]]
      | h :: t => (c :: h) :: t

/-- ASCII whitespace recognised by Python `str.strip`. -/
def isSpaceB (c : Char) : Bool :=
  c = ' ' || c = '\t' || c = '\n' || c = '\r' || c = Char.ofNat 11 || c = Char.ofNat 12

/-- Python `str.strip()`: drop leading and trailing whitespace. -/
def strip (l : List Char) : List Char :=
  (((l.dropWhile isSpaceB).reverse).dropWhile isSpaceB).reverse

/-- Index of the first occurrence of three consecutive backticks, if any.
This is where the greedy content part `(`?`?[^`])*` of
`find_rust_examples` must stop: its matches cannot contain or end in a
run of three backticks, so the closing ` ``` ` of a block is the first
triple-backtick run after the opener. -/
def firstTriple : List Char → Option Nat
  | [] => none
  | c :: rest =>
    if (c :: rest).take 3 = [tick, tick, tick] then some 0
    else (firstTriple rest).map (· + 1)

/-- Fuelled scanner for `find_rust_examples.finditer` over a markdown
file: leftmost matches of ` ```rust((`?`?[^`])*)``` ` scanning left to
right, resuming after each match; yields `(m.start(), m.group(1))`.
At a position where ` ```rust ` matches but no closing triple backtick
follows there is no match, and the engine moves one character on. -/
def scanMdF : Nat → Nat → List Char → List (Nat × Str)
  | 0, _, _ => []
  | fuel + 1, pos, cs =>
    if opener.isPrefixOf cs then
      match firstTriple (cs.drop 7) with
      | some k =>
          (pos, (cs.drop 7).take k) ::
            scanMdF fuel (pos + 7 + k + 3) (cs.drop (7 + k + 3))
      | none =>
          match cs with
          | [] => []
          | _ :: t => scanMdF fuel (pos + 1) t
    else
      match cs with
      | [] => []
      | _ :: t => scanMdF fuel (pos + 1) t

/-- All fenced rust examples of one markdown file, with their offsets. -/
def scanMd (cs : List Char) : List (Nat × Str) := scanMdF (cs.length + 1) 0 cs

/-- Python dict assignment `d[k] = v`: replace the value in place if the
key is present, otherwise append the new binding. -/
def dictSet (d : List (Str × Str × Nat)) (k : Str) (v : Str × Nat) :
    List (Str × Str × Nat) :=
  if d.any (fun kv => kv.1 == k) then
    d.map (fun kv => if kv.1 == k then (k, v) else kv)
  else d ++ [(k, v)]

/-- Python dict lookup `d[k]` (as an option). -/
def alookup (d : List (Str × Str × Nat)) (k : Str) : Option (Str × Nat) :=
  (d.find? (fun kv => kv.1 == k)).map (fun kv => kv.2)

/-- The `rust_examples_dict` assignments produced by `visit_md` on one
file: one `(stripped text, (path, offset))` per fenced block, in match
order. -/
def mdAssigns (p : Str) (content : Str) : List (Str × Str × Nat) :=
  (scanMd content).map (fun oc => (strip oc.2, p, oc.1))

/-- All dict assignments over the documentation tree, in file order. -/
def assignList (docs : List (Str × Str)) : List (Str × Str × Nat) :=
  docs.flatMap (fun pc => mdAssigns pc.1 pc.2)

/-- The final `rust_examples_dict`. -/
def buildDict (docs : List (Str × Str)) : List (Str × Str × Nat) :=
  (assignList docs).foldl (fun d kv => dictSet d kv.1 kv.2) []

/-- Python string comparison (lexicographic by code point). -/
def strLt : List Char → List Char → Bool
  | [], [] => false
  | [], _ :: _ => true
  | _ :: _, [] => false
  | a :: as, b :: bs => if a = b then strLt as bs else decide (a.toNat < b.toNat)

/-- Python tuple comparison on `(path, offset, content)` triples. -/
def tripLt (x y : Str × Nat × Str) : Bool :=
  strLt x.1 y.1 ||
    (x.1 == y.1 &&
      (decide (x.2.1 < y.2.1) || (x.2.1 == y.2.1 && strLt x.2.2 y.2.2)))

/-- Stable insertion of `x` into a sorted list: `x` goes in front of the
first element that is not below it. -/
def insertT (x : Str × Nat × Str) : List (Str × Nat × Str) → List (Str × Nat × Str)
  | [] => [x]
  | y :: ys => if tripLt y x then y :: insertT x ys else x :: y :: ys

/-- Stable insertion sort, modelling Python `list.sort()` on triples. -/
def sortT : List (Str × Nat × Str) → List (Str × Nat × Str)
  | [] => []
  | x :: xs => insertT x (sortT xs)

/-- The comprehension `[(p, off, content) for content, (p, off) in
rust_examples_dict.items()]`. -/
def dictToTriples (d : List (Str × Str × Nat)) : List (Str × Nat × Str) :=
  d.map (fun kv => (kv.2.1, kv.2.2, kv.1))

/-- The Ordered Example List `rust_examples`: deduplicated examples as
`(path, offset, content)` triples, sorted. -/
def rustExamples (docs : List (Str × Str)) : List (Str × Nat × Str) :=
  sortT (dictToTriples (buildDict docs))

/-- The strings matched by the per-line sub-pattern `//[!/][ ]?line`
(with the line text escaped by `re.escape`, hence literal), in the
engine's preference order: marker then optional greedy space. -/
def lineForms (l : List Char) : List (List Char) :=
  [['/', '/', '!', ' '] ++ l, ['/', '/', '!'] ++ l,
   ['/', '/', '/', ' '] ++ l, ['/', '/', '/'] ++ l]

/-- The strings matched by the `\n`-joined sub-patterns of all lines
after the first (each piece is a newline followed by a line form). -/
def tailForms : List (List Char) → List (List Char)
  | [] => [[]]
  | l :: ls =>
    (lineForms l).flatMap (fun f => (tailForms ls).map (fun r => ('\n' :: f) ++ r))

/-- The full set of strings matched by one example's capture group:
every line prefixed by `//!` or `///` and an optional single space,
lines joined by single newlines. -/
def exForms (e : List Char) : List (List Char) :=
  match splitLines e with
  | [] => [[]]
  | l :: ls =>
    (lineForms l).flatMap (fun f => (tailForms ls).map (fun r => f ++ r))

/-- The list of per-example matchers: group `i` of the combined pattern
matches exactly the strings in `patsOf examples` at index `i`. -/
def patsOf (examples : List (Str × Nat × Str)) : List (List (List Char)) :=
  examples.map (fun t => exForms t.2.2)

/-- The matchers derived from the whole documentation tree. -/
def pats (docs : List (Str × Str)) : List (List (List Char)) :=
  patsOf (rustExamples docs)

/-- First form of one group matching at the start of `s` (the engine's
backtracking order within one alternative). -/
def findForm (forms : List (List Char)) (s : List Char) : Option (List Char) :=
  forms.find? (fun f => f.isPrefixOf s)

/-- First alternative of the combined pattern matching at the start of
`s`, with the matched length; alternatives are tried left to right. -/
def firstMatchAux : List (List (List Char)) → Nat → List Char → Option (Nat × Nat)
  | [], _, _ => none
  | forms :: rest, g, s =>
    match findForm forms s with
    | some f => some (g, f.length)
    | none => firstMatchAux rest (g + 1) s

/-- Leftmost alternation match at the start of `s`. -/
def firstMatch (pats : List (List (List Char))) (s : List Char) : Option (Nat × Nat) :=
  firstMatchAux pats 0 s

/-- Fuelled model of `find_examples.finditer(text)` followed by the
group-recording loop of `visit_rust`: the indices of the capture groups
of the successive non-overlapping leftmost matches. -/
def scanGroupsF : Nat → List (List (List Char)) → List Char → List Nat
  | 0, _, _ => []
  | fuel + 1, ps, s =>
    match firstMatch ps s with
    | some gl => gl.1 :: scanGroupsF fuel ps (s.drop (max gl.2 1))
    | none =>
      match s with
      | [] => []
      | _ :: t => scanGroupsF fuel ps t

/-- The capture groups matched anywhere in one source file. -/
def scanGroups (ps : List (List (List Char))) (s : List Char) : List Nat :=
  scanGroupsF (s.length + 1) ps s

/-- The `found` flag of example `g` after scanning every rust file:
true iff group `g` matched in at least one file. -/
def foundFlag (docs : List (Str × Str)) (files : List (Str × Str)) (g : Nat) : Bool :=
  files.any (fun pc => (scanGroups (pats docs) pc.2).contains g)

/-- The `found` array after both scans. -/
def foundList (docs files : List (Str × Str)) : List Bool :=
  (List.range (rustExamples docs).length).map (foundFlag docs files)

/-- Indices of the examples reported missing (flag still false), in
report order. -/
def missingIdx (docs files : List (Str × Str)) : List Nat :=
  (List.range (rustExamples docs).length).filter (fun g => !(foundFlag docs files g))

/-- The final `bad` counter: how many examples were never found. -/
def badCount (docs files : List (Str × Str)) : Nat := (missingIdx docs files).length

/-- The process exit status: `sys.exit(1)` when `bad` is nonzero,
otherwise the script falls off the end and exits 0. -/
def exitCode (docs files : List (Str × Str)) : Nat :=
  if 0 < badCount docs files then 1 else 0

/-- Decimal digits of a natural number (fuelled helper). -/
def natDigitsF : Nat → Nat → List Char
  | 0, _ => []
  | f + 1, n =>
    if n < 10 then [Char.ofNat (48 + n)]
    else natDigitsF f (n / 10) ++ [Char.ofNat (48 + n % 10)]

/-- Decimal representation of a natural number. -/
def natToChars (n : Nat) : List Char := natDigitsF (n + 1) n

/-- The summary line `f"{bad} missing markdown examples"`, printed only
when at least one example is missing. -/
def summaryOut (docs files : List (Str × Str)) : Option Str :=
  if 0 < badCount docs files then
    some (natToChars (badCount docs files) ++ (" missing markdown examples").data)
  else none

/-- Join pieces with a separator (used for report indentation and for
assembling the pattern string). -/
def joinSep (sep : List Char) : List (List Char) → List Char
  | [] => []
  | [x] => x
  | x :: y :: t => x ++ sep ++ joinSep sep (y :: t)

/-- One printed block of the missing-example report (including the
newline appended by `print`). -/
def reportBlock (path e : Str) : Str :=
  ("Rust example from ").data ++ path ++ (" not found:\n").data ++
    joinSep ['\n'] ((splitLines e).map (fun l => ' ' :: ' ' :: l)) ++ ("\n\n\n").data

/-- Everything printed before the summary: one block per missing
example, in list order. -/
def reportOut (docs files : List (Str × Str)) : List Str :=
  (missingIdx docs files).map (fun g =>
    match (rustExamples docs)[g]? with
    | some t => reportBlock t.1 t.2.2
    | none => [])

/-- Denotation of the combined pattern string under Python `re`: the
union of the group languages; `"|".join` of zero sub-patterns is the
empty pattern, which matches the empty string. -/
def combinedLang (ps : List (List (List Char))) : List (List Char) :=
  match ps with
  | [] => [[]]
  | _ => ps.flatMap (fun x => x)

/-- Whether the combined pattern matches at position `p` of `s`. -/
def matchCombinedAt (ps : List (List (List Char))) (s : List Char) (p : Nat) : Bool :=
  (combinedLang ps).any (fun f => f.isPrefixOf (s.drop p))

/-- The characters escaped by Python 3.7+ `re.escape`
(`'()[]{}?*+-|^$\.&~# \t\n\r\v\f'`; braces and `\v`, `\f` are added by
code point). -/
def specials : List Char :=
  "()[]?*+-|^$\\.&~# \t\n\r".data ++
    [Char.ofNat 123, Char.ofNat 125, Char.ofNat 11, Char.ofNat 12]

/-- `re.escape` on a single character. -/
def reEscapeChar (c : Char) : List Char :=
  if specials.contains c then ['\\', c] else [c]

/-- Python `re.escape`. -/
def reEscape (l : List Char) : List Char := l.flatMap reEscapeChar

/-- The literal prefix `"//[!/][ ]?"` of every per-line sub-pattern. -/
def linePrefixPat : List Char := "//[!/][ ]?".data

/-- The sub-pattern string built for one example line. -/
def linePat (l : List Char) : List Char := linePrefixPat ++ reEscape l

/-- The body of one example's capture group: the per-line patterns
joined by the two-character escape `\n`. -/
def exPatBody (e : Str) : List Char :=
  joinSep ['\\', 'n'] ((splitLines e).map linePat)

/-- One example's parenthesised capture group. -/
def groupPat (e : Str) : List Char := '(' :: (exPatBody e ++ [')'])

/-- The combined pattern string `"|".join("(" + ... + ")")` passed to
`re.compile` in `find_examples`. -/
def combinedPat (examples : List (Str × Nat × Str)) : List Char :=
  joinSep ['|'] (examples.map (fun t => groupPat t.2.2))

/-- Number of capture groups of a pattern string: unescaped `(`
occurrences (the program never writes `(?`). -/
def countGroups : List Char → Nat
  | [] => 0
  | c :: rest =>
    if c = '\\' then
      match rest with
      | [] => 0
      | _ :: r2 => countGroups r2
    else if c = '(' then countGroups rest + 1
    else countGroups rest

/-- A pattern string is well-escaped: every backslash is followed by a
character. -/
def escOK : List Char → Bool
  | [] => true
  | c :: rest =>
    if c = '\\' then
      match rest with
      | [] => false
      | _ :: r2 => escOK r2
    else escOK rest

/-- No unescaped alternation bar occurs in the string. -/
def noBar : List Char → Bool
  | [] => true
  | c :: rest =>
    if c = '\\' then
      match rest with
      | [] => true
      | _ :: r2 => noBar r2
    else !(c == '|') && noBar rest

/-- Prepend characters to the first piece of a split. -/
def consHead (xs : List Char) : List (List Char) → List (List Char)
  | [] => [xs]
  | h :: t => (xs ++ h) :: t

/-- Split a pattern string at its unescaped top-level bars: recovers the
alternatives of the combined pattern. -/
def splitTop : List Char → List (List Char)
  | [] => [[]]
  | c :: rest =>
    if c = '\\' then
      match rest with
      | [] => [['\\']]
      | c2 :: r2 => consHead ['\\', c2] (splitTop r2)
    else if c = '|' then [] :: splitTop rest
    else consHead [c] (splitTop rest)

/-- A fenced-block body that the extraction treats verbatim: it contains
no triple-backtick run and does not end in a backtick, so the first
closing fence after it is exactly the one that follows it. -/
def okBody (b : List Char) : Bool :=
  (firstTriple b).isNone && !(b.getLast? == some tick)

/-- A string with no backtick at all (inert filler around fences). -/
def noTick (u : List Char) : Bool := u.all (fun c => !(c == tick))

/-- Group `g` of the matcher list has an occurrence with form `f` at
position `p` of the source text `s`. -/
def IsOcc (ps : List (List (List Char))) (s : List Char) (g p : Nat) (f : List Char) : Prop :=
  ∃ forms, ps[g]? = some forms ∧ f ∈ forms ∧ f.isPrefixOf (s.drop p) = true

/-- The comment-prefixed occurrences of the examples in `s` are pairwise
non-overlapping: two occurrences whose spans intersect are the same
group at the same position. -/
def Disj (ps : List (List (List Char))) (s : List Char) : Prop :=
  ∀ g₁ p₁ f₁ g₂ p₂ f₂, IsOcc ps s g₁ p₁ f₁ → IsOcc ps s g₂ p₂ f₂ →
    p₁ < p₂ + f₂.length → p₂ < p₁ + f₁.length → g₁ = g₂ ∧ p₁ = p₂

/-- Executable check of `Disj` (all positions up to the text length). -/
def disjB (ps : List (List (List Char))) (s : List Char) : Bool :=
  (List.range ps.length).all (fun g₁ =>
    (List.range ps.length).all (fun g₂ =>
      (List.range s.length).all (fun p₁ =>
        (List.range s.length).all (fun p₂ =>
          (ps.getD g₁ []).all (fun f₁ =>
            (ps.getD g₂ []).all (fun f₂ =>
              !(f₁.isPrefixOf (s.drop p₁)) || !(f₂.isPrefixOf (s.drop p₂)) ||
                !(decide (p₁ < p₂ + f₂.length)) || !(decide (p₂ < p₁ + f₁.length)) ||
                  (decide (g₁ = g₂) && decide (p₁ = p₂))))))))

/-- Tail of the claim-side occurrence shape: each later line prefixed by
its chosen marker and exactly one space, preceded by a newline. -/
def osTail : List Char → List (List Char) → List Char
  | m :: ms, l :: ls => ('\n' :: '/' :: '/' :: m :: ' ' :: l) ++ osTail ms ls
  | _, _ => []

/-- The claim-side occurrence shape: every line of the example prefixed
by a chosen accepted marker (`ms` holds `'!'` or `'/'` per line) and
exactly one following space, lines joined by newlines. -/
def oneSpaceForm (ms : List Char) (e : Str) : List Char :=
  match ms, splitLines e with
  | m :: ms2, l :: ls => ('/' :: '/' :: m :: ' ' :: l) ++ osTail ms2 ls
  | _, _ => []

/-- All chosen markers are accepted comment markers. -/
@[reducible]
def OkMarkers (ms : List Char) : Prop := ∀ m ∈ ms, m = '!' ∨ m = '/'

/-- Column anchoring of the interior of a form: every newline is
immediately followed by the `//` of the next comment marker. -/
def nlOk : List Char → Bool
  | [] => true
  | c :: rest =>
    if c = '\n' then
      match rest with
      | a :: b :: r2 => a = '/' && b = '/' && nlOk r2
      | _ => false
    else nlOk rest

/-- All `(path, offset)` pairs assigned to a given trimmed text during
the documentation scan, in scan order. -/
def encounters (docs : List (Str × Str)) (text : Str) : List (Str × Nat) :=
  ((assignList docs).filter (fun kv => kv.1 == text)).map (fun kv => kv.2)

/-- Ordering on examples by origin path, then offset (content ignored):
the order the Ordered Example List is claimed to be sorted by. -/
def pathOffLe (x y : Str × Nat × Str) : Prop :=
  strLt x.1 y.1 = true ∨ (x.1 = y.1 ∧ x.2.1 ≤ y.2.1)

/-- Whether example `e`'s own sub-pattern matches at position `p` of
`s` (one alternative considered in isolation). -/
def matchesExAt (e : Str) (s : List Char) (p : Nat) : Bool :=
  (exForms e).any (fun f => f.isPrefixOf (s.drop p))

/-! ### Basic lemmas -/

theorem isPrefixOf_append_self (l t : List Char) : l.isPrefixOf (l ++ t) = true :=
  List.isPrefixOf_iff_prefix.2 ⟨t, rfl⟩

theorem char_toNat_inj {a b : Char} (h : a.toNat = b.toNat) : a = b := by
  have h2 := congrArg Char.ofNat h
  rwa [Char.ofNat_toNat, Char.ofNat_toNat] at h2

theorem strLt_trans : ∀ (a b c : List Char),
    strLt a b = true → strLt b c = true → strLt a c = true := by
  intro a
  induction a with
  | nil =>
    intro b c hab hbc
    cases b with
    | nil => simp [strLt] at hab
    | cons y bs =>
      cases c with
      | nil => simp [strLt] at hbc
      | cons z cs => simp [strLt]
  | cons x as ih =>
    intro b c hab hbc
    cases b with
    | nil => simp [strLt] at hab
    | cons y bs =>
      cases c with
      | nil => simp [strLt] at hbc
      | cons z cs =>
        simp only [strLt] at hab hbc ⊢
        by_cases hxy : x = y
        · subst hxy
          simp only [if_pos rfl] at hab
          by_cases hyz : x = z
          · subst hyz
            simp only [if_pos rfl] at hbc ⊢
            exact ih bs cs hab hbc
          · simp only [if_neg hyz] at hbc ⊢
            exact hbc
        · simp only [if_neg hxy] at hab
          by_cases hyz : y = z
          · subst hyz
            simp only [if_neg hxy]
            exact hab
          · simp only [if_neg hyz] at hbc
            have h1 : x.toNat < y.toNat := of_decide_eq_true hab
            have h2 : y.toNat < z.toNat := of_decide_eq_true hbc
            have hxz : ¬ x = z := by
              intro h
              subst h
              omega
            simp only [if_neg hxz]
            exact decide_eq_true (by omega)

theorem strLt_tri : ∀ (a b : List Char),
    strLt a b = false → strLt b a = false → a = b := by
  intro a
  induction a with
  | nil =>
    intro b h1 _h2
    cases b with
    | nil => rfl
    | cons y bs => simp [strLt] at h1
  | cons x as ih =>
    intro b h1 h2
    cases b with
    | nil => simp [strLt] at h2
    | cons y bs =>
      simp only [strLt] at h1 h2
      by_cases hxy : x = y
      · subst hxy
        simp only [if_pos rfl] at h1 h2
        rw [ih bs h1 h2]
      · have hyx : ¬ y = x := fun h => hxy h.symm
        simp only [if_neg hxy] at h1
        simp only [if_neg hyx] at h2
        have n1 : ¬ x.toNat < y.toNat := of_decide_eq_false h1
        have n2 : ¬ y.toNat < x.toNat := of_decide_eq_false h2
        exact absurd (char_toNat_inj (by omega)) hxy

theorem tripLt_le {x y : Str × Nat × Str} (h : tripLt x y = true) : pathOffLe x y := by
  simp only [tripLt, Bool.or_eq_true, Bool.and_eq_true, beq_iff_eq, decide_eq_true_eq] at h
  rcases h with h | ⟨hp, h⟩
  · exact Or.inl h
  · rcases h with h | ⟨ho, _⟩
    · exact Or.inr ⟨hp, Nat.le_of_lt h⟩
    · exact Or.inr ⟨hp, Nat.le_of_eq ho⟩

theorem tripLt_not_le {x y : Str × Nat × Str} (h : tripLt y x = false) : pathOffLe x y := by
  simp only [tripLt, Bool.or_eq_false_iff, Bool.and_eq_false_iff] at h
  obtain ⟨hs, hrest⟩ := h
  by_cases hxy : strLt x.1 y.1 = true
  · exact Or.inl hxy
  · have hpe : x.1 = y.1 := strLt_tri _ _ (Bool.of_not_eq_true hxy) hs
    refine Or.inr ⟨hpe, ?_⟩
    rcases hrest with hne | ⟨hlt, _⟩
    · exact absurd (beq_iff_eq.2 hpe.symm) (by simp [hne])
    · have := of_decide_eq_false hlt
      omega

theorem pathOffLe_trans {x y z : Str × Nat × Str}
    (h1 : pathOffLe x y) (h2 : pathOffLe y z) : pathOffLe x z := by
  rcases h1 with h1 | ⟨he1, ho1⟩
  · rcases h2 with h2 | ⟨he2, _⟩
    · exact Or.inl (strLt_trans _ _ _ h1 h2)
    · exact Or.inl (he2 ▸ h1)
  · rcases h2 with h2 | ⟨he2, ho2⟩
    · exact Or.inl (he1 ▸ h2)
    · exact Or.inr ⟨he1.trans he2, Nat.le_trans ho1 ho2⟩

theorem mem_insertT {z x : Str × Nat × Str} :
    ∀ {l : List (Str × Nat × Str)}, z ∈ insertT x l ↔ z = x ∨ z ∈ l := by
  intro l
  induction l with
  | nil => simp [insertT]
  | cons y ys ih =>
    simp only [insertT]
    split
    all_goals simp only [List.mem_cons, ih]
    all_goals tauto

theorem pairwise_insertT (x : Str × Nat × Str) :
    ∀ (l : List (Str × Nat × Str)), List.Pairwise pathOffLe l →
      List.Pairwise pathOffLe (insertT x l) := by
  intro l
  induction l with
  | nil => intro _; simp [insertT]
  | cons y ys ih =>
    intro hp
    rw [List.pairwise_cons] at hp
    obtain ⟨hy, hys⟩ := hp
    simp only [insertT]
    split
    · rename_i hlt
      rw [List.pairwise_cons]
      refine ⟨?_, ih hys⟩
      intro z hz
      rcases mem_insertT.1 hz with rfl | hz2
      · exact tripLt_le hlt
      · exact hy z hz2
    · rename_i hnlt
      have hxy : pathOffLe x y := tripLt_not_le (Bool.of_not_eq_true hnlt)
      rw [List.pairwise_cons]
      refine ⟨?_, List.pairwise_cons.2 ⟨hy, hys⟩⟩
      intro z hz
      rcases List.mem_cons.1 hz with rfl | hz2
      · exact hxy
      · exact pathOffLe_trans hxy (hy z hz2)

theorem pairwise_sortT : ∀ (l : List (Str × Nat × Str)),
    List.Pairwise pathOffLe (sortT l) := by
  intro l
  induction l with
  | nil => simp [sortT]
  | cons x xs ih => exact pairwise_insertT x _ ih

/-! ### Shape of the matched forms -/

theorem splitLines_ne_nil : ∀ (cs : List Char), splitLines cs ≠ [] := by
  intro cs
  cases cs with
  | nil => simp [splitLines]
  | cons c rest =>
    simp only [splitLines]
    split
    · simp
    · split <;> simp

theorem mem_lineForms {l f : List Char} (h : f ∈ lineForms l) :
    ∃ m sp, (m = '!' ∨ m = '/') ∧ (sp = [' '] ∨ sp = ([] : List Char)) ∧
      f = '/' :: '/' :: m :: (sp ++ l) := by
  simp only [lineForms, List.mem_cons, List.not_mem_nil, or_false] at h
  rcases h with rfl | rfl | rfl | rfl
  · exact ⟨'!', [' '], Or.inl rfl, Or.inl rfl, rfl⟩
  · exact ⟨'!', [], Or.inl rfl, Or.inr rfl, rfl⟩
  · exact ⟨'/', [' '], Or.inr rfl, Or.inl rfl, rfl⟩
  · exact ⟨'/', [], Or.inr rfl, Or.inr rfl, rfl⟩

theorem exForms_ne_nil {e : Str} {f : List Char} (h : f ∈ exForms e) : f ≠ [] := by
  unfold exForms at h
  rcases hsl : splitLines e with _ | ⟨l, ls⟩
  · exact absurd hsl (splitLines_ne_nil e)
  · rw [hsl] at h
    simp only [List.mem_flatMap, List.mem_map] at h
    obtain ⟨lf, hlf, r, _hr, rfl⟩ := h
    obtain ⟨m, sp, _, _, rfl⟩ := mem_lineForms hlf
    simp

theorem pats_forms_ne (docs : List (Str × Str)) :
    ∀ forms ∈ pats docs, ∀ f ∈ forms, f ≠ [] := by
  intro forms hforms f hf
  unfold pats patsOf at hforms
  obtain ⟨t, _ht, rfl⟩ := List.mem_map.1 hforms
  exact exForms_ne_nil hf

/-! ### Matching semantics -/

theorem pref_length_le {f s : List Char} (h : f.isPrefixOf s = true) :
    f.length ≤ s.length :=
  (List.isPrefixOf_iff_prefix.1 h).length_le

theorem occ_pos_lt {f s : List Char} {p : Nat}
    (h : f.isPrefixOf (s.drop p) = true) (hne : f ≠ []) : p < s.length := by
  have h1 := pref_length_le h
  rw [List.length_drop] at h1
  have h2 : 0 < f.length := List.length_pos.2 hne
  omega

theorem findForm_some {forms : List (List Char)} {s f : List Char}
    (h : findForm forms s = some f) : f ∈ forms ∧ f.isPrefixOf s = true := by
  unfold findForm at h
  have h2 := List.find?_some h
  exact ⟨List.mem_of_find?_eq_some h, by simpa using h2⟩

theorem findForm_none {forms : List (List Char)} {s : List Char}
    (h : findForm forms s = none) : ∀ f ∈ forms, f.isPrefixOf s = false := by
  unfold findForm at h
  intro f hf
  exact Bool.of_not_eq_true (List.find?_eq_none.1 h f hf)

theorem firstMatchAux_none :
    ∀ {ps : List (List (List Char))} {g0 : Nat} {s : List Char},
      firstMatchAux ps g0 s = none →
      ∀ (j : Nat) (forms : List (List Char)), ps[j]? = some forms →
        findForm forms s = none := by
  intro ps
  induction ps with
  | nil => intro g0 s _ j forms hj; simp at hj
  | cons forms0 rest ih =>
    intro g0 s h j forms hj
    simp only [firstMatchAux] at h
    rcases hff : findForm forms0 s with _ | f
    · cases j with
      | zero => simp at hj; rw [← hj]; exact hff
      | succ j2 =>
        rw [hff] at h
        exact ih h j2 forms (by simpa using hj)
    · rw [hff] at h; exact absurd h (by simp)

theorem firstMatchAux_some :
    ∀ {ps : List (List (List Char))} {g0 : Nat} {s : List Char} {gr ℓ : Nat},
      firstMatchAux ps g0 s = some (gr, ℓ) →
      ∃ j forms f, ps[j]? = some forms ∧ gr = g0 + j ∧
        findForm forms s = some f ∧ ℓ = f.length := by
  intro ps
  induction ps with
  | nil => intro g0 s gr ℓ h; simp [firstMatchAux] at h
  | cons forms0 rest ih =>
    intro g0 s gr ℓ h
    simp only [firstMatchAux] at h
    rcases hff : findForm forms0 s with _ | f
    · rw [hff] at h
      obtain ⟨j, forms, f, hj, hgr, hfind, hl⟩ := ih h
      exact ⟨j + 1, forms, f, by simpa using hj, by omega, hfind, hl⟩
    · rw [hff] at h
      simp only [Option.some.injEq, Prod.mk.injEq] at h
      exact ⟨0, forms0, f, by simp, by omega, hff, h.2.symm⟩

theorem isOcc_drop {ps : List (List (List Char))} {s : List Char} {k g p : Nat}
    {f : List Char} : IsOcc ps (s.drop k) g p f ↔ IsOcc ps s g (k + p) f := by
  unfold IsOcc
  rw [List.drop_drop]

theorem disj_drop (k : Nat) {ps : List (List (List Char))} {s : List Char}
    (h : Disj ps s) : Disj ps (s.drop k) := by
  intro g₁ p₁ f₁ g₂ p₂ f₂ h1 h2 hov1 hov2
  have hm := h g₁ (k + p₁) f₁ g₂ (k + p₂) f₂ (isOcc_drop.1 h1) (isOcc_drop.1 h2)
    (by omega) (by omega)
  exact ⟨hm.1, by omega⟩

theorem firstMatch_occ {ps : List (List (List Char))} {s : List Char} {gr ℓ : Nat}
    (h : firstMatch ps s = some (gr, ℓ)) :
    ∃ f, IsOcc ps s gr 0 f ∧ ℓ = f.length := by
  obtain ⟨j, forms, f, hj, hgr, hfind, hl⟩ := firstMatchAux_some h
  have hj2 : ps[gr]? = some forms := by rw [hgr]; simpa using hj
  obtain ⟨hmem, hpre⟩ := findForm_some hfind
  exact ⟨f, ⟨forms, hj2, hmem, by simpa using hpre⟩, hl⟩

theorem scanF_complete :
    ∀ (fuel : Nat) (ps : List (List (List Char))) (s : List Char) (g p : Nat)
      (f : List Char),
      s.length < fuel →
      (∀ forms ∈ ps, ∀ f0 ∈ forms, f0 ≠ []) →
      Disj ps s →
      IsOcc ps s g p f →
      g ∈ scanGroupsF fuel ps s := by
  intro fuel
  induction fuel with
  | zero => intro ps s g p f h; omega
  | succ n ih =>
    intro ps s g p f hlen hne hdisj hocc
    obtain ⟨forms, hg, hf, hpre⟩ := hocc
    have hfne : f ≠ [] := hne forms (List.getElem?_mem hg) f hf
    have hps : p < s.length := occ_pos_lt hpre hfne
    simp only [scanGroupsF]
    rcases hfm : firstMatch ps s with _ | ⟨gr, ℓ⟩
    · dsimp only
      cases s with
      | nil => simp at hps
      | cons c t =>
        dsimp only
        have hp0 : p ≠ 0 := by
          intro hp
          rw [hp, List.drop_zero] at hpre
          have hnone := firstMatchAux_none hfm g forms hg
          have := findForm_none hnone f hf
          rw [hpre] at this
          exact absurd this (by simp)
        refine ih ps t g (p - 1) f ?_ hne ?_ ?_
        · simp at hlen; omega
        · have := disj_drop 1 hdisj
          rwa [List.drop_succ_cons, List.drop_zero] at this
        · refine ⟨forms, hg, hf, ?_⟩
          have hdr : t.drop (p - 1) = (c :: t).drop p := by
            conv_rhs => rw [show p = (p - 1) + 1 from by omega]
            rw [List.drop_succ_cons]
          rwa [hdr]
    · dsimp only
      obtain ⟨f2, hocc2, hl2⟩ := firstMatch_occ hfm
      have hf2ne : f2 ≠ [] := by
        obtain ⟨forms2, hg2, hf2, _⟩ := hocc2
        exact hne forms2 (List.getElem?_mem hg2) f2 hf2
      have hl1 : 1 ≤ ℓ := by
        have := List.length_pos.2 hf2ne
        omega
      by_cases hover : p < ℓ
      · have hm := hdisj g p f gr 0 f2 ⟨forms, hg, hf, hpre⟩ hocc2
          (by rw [hl2] at hover; omega)
          (by have := List.length_pos.2 hfne; omega)
        rw [hm.1]
        exact List.mem_cons_self _ _
      · have hmax : max ℓ 1 = ℓ := by omega
        rw [hmax]
        refine List.mem_cons_of_mem _ (ih ps (s.drop ℓ) g (p - ℓ) f ?_ hne
          (disj_drop ℓ hdisj) ?_)
        · rw [List.length_drop]; omega
        · rw [isOcc_drop]
          refine ⟨forms, hg, hf, ?_⟩
          have hpl : ℓ + (p - ℓ) = p := by omega
          rwa [hpl]

theorem scanF_sound :
    ∀ (fuel : Nat) (ps : List (List (List Char))) (s : List Char) (g : Nat),
      g ∈ scanGroupsF fuel ps s → ∃ p f, IsOcc ps s g p f := by
  intro fuel
  induction fuel with
  | zero => intro ps s g h; simp [scanGroupsF] at h
  | succ n ih =>
    intro ps s g h
    simp only [scanGroupsF] at h
    rcases hfm : firstMatch ps s with _ | ⟨gr, ℓ⟩
    · rw [hfm] at h
      dsimp only at h
      cases s with
      | nil => simp at h
      | cons c t =>
        dsimp only at h
        obtain ⟨p, f, hocc⟩ := ih ps t g h
        have hshift : IsOcc ps ((c :: t).drop 1) g p f := by
          rwa [List.drop_succ_cons, List.drop_zero]
        rw [isOcc_drop] at hshift
        exact ⟨1 + p, f, hshift⟩
    · rw [hfm] at h
      dsimp only at h
      rcases List.mem_cons.1 h with rfl | h2
      · obtain ⟨f2, hocc2, _⟩ := firstMatch_occ hfm
        exact ⟨0, f2, hocc2⟩
      · obtain ⟨p, f, hocc⟩ := ih ps (s.drop (max ℓ 1)) g h2
        rw [isOcc_drop] at hocc
        exact ⟨max ℓ 1 + p, f, hocc⟩

/-! ### Bridges to the found flags and the report -/

theorem foundFlag_of_mem {docs files : List (Str × Str)} {g : Nat}
    {file : Str × Str} (hfile : file ∈ files)
    (hmem : g ∈ scanGroups (pats docs) file.2) : foundFlag docs files g = true := by
  unfold foundFlag
  rw [List.any_eq_true]
  refine ⟨file, hfile, ?_⟩
  exact List.elem_iff.2 hmem

theorem found_sound {docs files : List (Str × Str)} {g : Nat}
    (h : foundFlag docs files g = true) :
    ∃ file ∈ files, ∃ p f, IsOcc (pats docs) file.2 g p f := by
  unfold foundFlag at h
  obtain ⟨file, hfile, hcont⟩ := List.any_eq_true.1 h
  refine ⟨file, hfile, ?_⟩
  exact scanF_sound _ _ _ _ (List.elem_iff.1 hcont)

theorem not_missing_of_found {docs files : List (Str × Str)} {g : Nat}
    (h : foundFlag docs files g = true) : g ∉ missingIdx docs files := by
  unfold missingIdx
  intro hmem
  have := (List.mem_filter.1 hmem).2
  rw [h] at this
  simp at this

theorem missing_of_not_found {docs files : List (Str × Str)} {g : Nat}
    (hg : g < (rustExamples docs).length)
    (h : foundFlag docs files g = false) : g ∈ missingIdx docs files := by
  unfold missingIdx
  rw [List.mem_filter]
  exact ⟨List.mem_range.2 hg, by rw [h]; rfl⟩

theorem disjB_spec {ps : List (List (List Char))} {s : List Char}
    (hne : ∀ forms ∈ ps, ∀ f ∈ forms, f ≠ [])
    (h : disjB ps s = true) : Disj ps s := by
  intro g₁ p₁ f₁ g₂ p₂ f₂ occ1 occ2 hov1 hov2
  obtain ⟨forms1, hg1, hf1, hp1⟩ := occ1
  obtain ⟨forms2, hg2, hf2, hp2⟩ := occ2
  have hg1l : g₁ < ps.length := (List.getElem?_eq_some_iff.1 hg1).1
  have hg2l : g₂ < ps.length := (List.getElem?_eq_some_iff.1 hg2).1
  have hp1l : p₁ < s.length := occ_pos_lt hp1 (hne forms1 (List.getElem?_mem hg1) f₁ hf1)
  have hp2l : p₂ < s.length := occ_pos_lt hp2 (hne forms2 (List.getElem?_mem hg2) f₂ hf2)
  unfold disjB at h
  rw [List.all_eq_true] at h
  have h1 := h g₁ (List.mem_range.2 hg1l)
  rw [List.all_eq_true] at h1
  have h2 := h1 g₂ (List.mem_range.2 hg2l)
  rw [List.all_eq_true] at h2
  have h3 := h2 p₁ (List.mem_range.2 hp1l)
  rw [List.all_eq_true] at h3
  have h4 := h3 p₂ (List.mem_range.2 hp2l)
  rw [List.all_eq_true] at h4
  have hgd1 : ps.getD g₁ [] = forms1 := by
    rw [List.getD_eq_getElem?_getD, hg1]; rfl
  have hgd2 : ps.getD g₂ [] = forms2 := by
    rw [List.getD_eq_getElem?_getD, hg2]; rfl
  have h5 := h4 f₁ (by rw [hgd1]; exact hf1)
  rw [List.all_eq_true] at h5
  have h6 := h5 f₂ (by rw [hgd2]; exact hf2)
  rw [hp1, hp2] at h6
  simp only [Bool.not_true, Bool.false_or, decide_eq_true_eq,
    Bool.or_eq_true, Bool.not_eq_true', decide_eq_false_iff_not,
    Bool.and_eq_true] at h6
  tauto

/-! ### The claim-side occurrence shapes are matched forms -/

theorem osTail_mem : ∀ (ls : List (List Char)) (ms : List Char),
    ms.length = ls.length → OkMarkers ms → osTail ms ls ∈ tailForms ls := by
  intro ls
  induction ls with
  | nil =>
    intro ms hlen _
    have hms : ms = [] := List.length_eq_zero.1 hlen
    subst hms
    simp [osTail, tailForms]
  | cons l ls2 ih =>
    intro ms hlen hok
    cases ms with
    | nil => simp at hlen
    | cons m ms2 =>
      simp only [osTail, tailForms, List.mem_flatMap, List.mem_map]
      refine ⟨'/' :: '/' :: m :: ' ' :: l, ?_, osTail ms2 ls2,
        ih ms2 (by simpa using hlen) (fun x hx => hok x (List.mem_cons_of_mem _ hx)), ?_⟩
      · rcases hok m (List.mem_cons_self _ _) with rfl | rfl
        · simp [lineForms]
        · simp [lineForms]
      · simp

theorem oneSpaceForm_mem {ms : List Char} {e : Str}
    (hlen : ms.length = (splitLines e).length) (hok : OkMarkers ms) :
    oneSpaceForm ms e ∈ exForms e := by
  rcases hsl : splitLines e with _ | ⟨l, ls⟩
  · exact absurd hsl (splitLines_ne_nil e)
  · cases ms with
    | nil => rw [hsl] at hlen; simp at hlen
    | cons m ms2 =>
      rw [hsl] at hlen
      simp only [oneSpaceForm, exForms, hsl]
      simp only [List.mem_flatMap, List.mem_map]
      refine ⟨'/' :: '/' :: m :: ' ' :: l, ?_, osTail ms2 ls,
        osTail_mem ls ms2 (by simpa using hlen)
          (fun x hx => hok x (List.mem_cons_of_mem _ hx)), ?_⟩
      · rcases hok m (List.mem_cons_self _ _) with rfl | rfl
        · simp [lineForms]
        · simp [lineForms]
      · simp

/-! ### Column anchoring of the form interiors -/

theorem splitLines_no_nl : ∀ (cs : List Char), ∀ l ∈ splitLines cs, '\n' ∉ l := by
  intro cs
  induction cs with
  | nil => intro l hl; simp [splitLines] at hl; simp [hl]
  | cons c rest ih =>
    intro l hl
    simp only [splitLines] at hl
    by_cases hc : c = '\n'
    · rw [if_pos hc] at hl
      rcases List.mem_cons.1 hl with rfl | hl2
      · simp
      · exact ih l hl2
    · rw [if_neg hc] at hl
      rcases h2 : splitLines rest with _ | ⟨h0, t⟩
      · rw [h2] at hl
        simp only [List.mem_singleton] at hl
        subst hl
        simp only [List.mem_singleton]
        exact fun h => hc h.symm
      · rw [h2] at hl
        rcases List.mem_cons.1 hl with rfl | hl2
        · intro hmem
          rcases List.mem_cons.1 hmem with h3 | h3
          · exact hc h3.symm
          · exact ih h0 (h2 ▸ List.mem_cons_self _ _) h3
        · exact ih l (h2 ▸ List.mem_cons_of_mem _ hl2)

theorem nlOk_append_no_nl : ∀ (a b : List Char), '\n' ∉ a →
    nlOk (a ++ b) = nlOk b := by
  intro a
  induction a with
  | nil => intro b _; rfl
  | cons c a2 ih =>
    intro b ha
    have hc : ¬ c = '\n' := fun h => ha (h ▸ List.mem_cons_self _ _)
    rw [List.cons_append, nlOk.eq_def]
    dsimp only
    rw [if_neg hc]
    exact ih b (fun h => ha (List.mem_cons_of_mem _ h))

theorem tailForms_nlOk : ∀ (ls : List (List Char)), (∀ l ∈ ls, '\n' ∉ l) →
    ∀ r ∈ tailForms ls, nlOk r = true := by
  intro ls
  induction ls with
  | nil => intro _ r hr; simp [tailForms] at hr; simp [hr, nlOk]
  | cons l ls2 ih =>
    intro hnl r hr
    simp only [tailForms, List.mem_flatMap, List.mem_map] at hr
    obtain ⟨lf, hlf, rr, hrr, rfl⟩ := hr
    obtain ⟨m, sp, hm, hsp, rfl⟩ := mem_lineForms hlf
    have hml : '\n' ∉ ([m] ++ sp ++ l) := by
      intro hmem
      rcases List.mem_append.1 hmem with h2 | h2
      · rcases List.mem_append.1 h2 with h3 | h3
        · rcases hm with rfl | rfl <;> simp at h3
        · rcases hsp with rfl | rfl <;> simp at h3
      · exact hnl l (List.mem_cons_self _ _) h2
    have heq : (('\n' :: '/' :: '/' :: m :: (sp ++ l)) ++ rr) =
        '\n' :: '/' :: '/' :: (([m] ++ sp ++ l) ++ rr) := by simp
    rw [heq, nlOk.eq_def]
    dsimp only
    rw [if_pos rfl]
    simp only [Bool.and_eq_true, decide_eq_true_eq, true_and, and_true]
    rw [nlOk_append_no_nl _ _ hml]
    exact ih (fun x hx => hnl x (List.mem_cons_of_mem _ hx)) rr hrr

theorem exForms_nlOk {e : Str} {f : List Char} (h : f ∈ exForms e) :
    nlOk f = true := by
  unfold exForms at h
  rcases hsl : splitLines e with _ | ⟨l, ls⟩
  · exact absurd hsl (splitLines_ne_nil e)
  · rw [hsl] at h
    simp only [List.mem_flatMap, List.mem_map] at h
    obtain ⟨lf, hlf, r, hr, rfl⟩ := h
    obtain ⟨m, sp, hm, hsp, rfl⟩ := mem_lineForms hlf
    have hnl : ∀ x ∈ splitLines e, '\n' ∉ x := splitLines_no_nl e
    have hml : '\n' ∉ ('/' :: '/' :: m :: (sp ++ l)) := by
      intro hmem
      rcases List.mem_cons.1 hmem with h3 | h3
      · exact absurd h3.symm (by decide)
      rcases List.mem_cons.1 h3 with h4 | h4
      · exact absurd h4.symm (by decide)
      rcases List.mem_cons.1 h4 with h5 | h5
      · rcases hm with rfl | rfl <;> exact absurd h5.symm (by decide)
      rcases List.mem_append.1 h5 with h6 | h6
      · rcases hsp with rfl | rfl <;> simp at h6
      · exact hnl l (hsl ▸ List.mem_cons_self _ _) h6
    rw [nlOk_append_no_nl _ _ hml]
    exact tailForms_nlOk ls (fun x hx => hnl x (hsl ▸ List.mem_cons_of_mem _ hx)) r hr

theorem matchesExAt_of_mem {e : Str} {f pre post : List Char}
    (hf : f ∈ exForms e) :
    matchesExAt e (pre ++ f ++ post) pre.length = true := by
  unfold matchesExAt
  rw [List.any_eq_true]
  refine ⟨f, hf, ?_⟩
  rw [List.append_assoc, List.drop_left]
  exact isPrefixOf_append_self f post

/-! ### Dictionary semantics -/

theorem find?_mapped_self (d : List (Str × Str × Nat)) (k : Str) (v : Str × Nat)
    (h : d.any (fun kv => kv.1 == k) = true) :
    (d.map (fun kv => if kv.1 == k then (k, v) else kv)).find?
      (fun kv => kv.1 == k) = some (k, v) := by
  induction d with
  | nil => simp at h
  | cons kv d2 ih =>
    by_cases hk : (kv.1 == k) = true
    · rw [List.map_cons, if_pos hk, List.find?_cons]
      have : ((k, v).1 == k) = true := beq_iff_eq.2 rfl
      rw [this]
    · rw [List.map_cons, if_neg hk, List.find?_cons]
      rw [Bool.of_not_eq_true hk]
      rw [List.any_cons, Bool.of_not_eq_true hk, Bool.false_or] at h
      exact ih h

theorem find?_mapped_other (d : List (Str × Str × Nat)) (k : Str) (v : Str × Nat)
    (k2 : Str) (hne : ¬ k2 = k) :
    (d.map (fun kv => if kv.1 == k then (k, v) else kv)).find?
      (fun kv => kv.1 == k2) = d.find? (fun kv => kv.1 == k2) := by
  induction d with
  | nil => rfl
  | cons kv d2 ih =>
    by_cases hk : (kv.1 == k) = true
    · rw [List.map_cons, if_pos hk, List.find?_cons, List.find?_cons]
      have hkeq : kv.1 = k := beq_iff_eq.1 hk
      have h1 : ((k, v).1 == k2) = false := beq_eq_false_iff_ne.2 (fun h => hne h.symm)
      have h2 : (kv.1 == k2) = false :=
        beq_eq_false_iff_ne.2 (fun h => hne (h.symm.trans hkeq))
      rw [h1, h2]
      exact ih
    · rw [List.map_cons, if_neg hk, List.find?_cons, List.find?_cons]
      cases hpred : (kv.1 == k2) <;> simp only [ih]

theorem alookup_dictSet_self (d : List (Str × Str × Nat)) (k : Str) (v : Str × Nat) :
    alookup (dictSet d k v) k = some v := by
  unfold dictSet alookup
  by_cases h : d.any (fun kv => kv.1 == k) = true
  · rw [if_pos h, find?_mapped_self d k v h]
    rfl
  · rw [if_neg h]
    have hall : d.find? (fun kv => kv.1 == k) = none := by
      rw [List.find?_eq_none]
      intro x hx
      exact List.any_eq_false.1 (Bool.of_not_eq_true h) x hx
    rw [List.find?_append, hall]
    have : List.find? (fun kv => kv.1 == k) [(k, v)] = some (k, v) := by
      rw [List.find?_cons]
      have hbeq : (((k, v) : Str × Str × Nat).1 == k) = true := beq_iff_eq.2 rfl
      rw [hbeq]
    rw [this]
    rfl

theorem alookup_dictSet_other (d : List (Str × Str × Nat)) (k : Str) (v : Str × Nat)
    (k2 : Str) (hne : ¬ k2 = k) :
    alookup (dictSet d k v) k2 = alookup d k2 := by
  unfold dictSet alookup
  by_cases h : d.any (fun kv => kv.1 == k) = true
  · rw [if_pos h, find?_mapped_other d k v k2 hne]
  · rw [if_neg h, List.find?_append]
    have hlast : List.find? (fun kv => kv.1 == k2) [(k, v)] = none := by
      rw [List.find?_cons]
      have hbeq : (((k, v) : Str × Str × Nat).1 == k2) = false :=
        beq_eq_false_iff_ne.2 (fun h2 => hne h2.symm)
      rw [hbeq]
      rfl
    rw [hlast, Option.or_none]

theorem getLast?_cons_or {α : Type} (a : α) (l : List α) :
    (a :: l).getLast? = (l.getLast?).or (some a) := by
  cases l with
  | nil => rfl
  | cons b l2 =>
    rw [List.getLast?_cons_cons]
    have hne : (b :: l2) ≠ [] := by simp
    have hsome := List.getLast?_isSome.2 hne
    obtain ⟨z, hz⟩ := Option.isSome_iff_exists.1 hsome
    rw [hz]
    rfl

theorem alookup_foldl : ∀ (l d : List (Str × Str × Nat)) (k : Str),
    alookup (l.foldl (fun acc kv => dictSet acc kv.1 kv.2) d) k =
      (((l.filter (fun kv => kv.1 == k)).map (fun kv => kv.2)).getLast?).or
        (alookup d k) := by
  intro l
  induction l with
  | nil => intro d k; rfl
  | cons kv l2 ih =>
    intro d k
    rw [List.foldl_cons, ih]
    by_cases hk : (kv.1 == k) = true
    · have hfil : List.filter (fun kv => kv.1 == k) (kv :: l2) =
          kv :: List.filter (fun kv => kv.1 == k) l2 := by
        simp [List.filter_cons, hk]
      rw [hfil, List.map_cons, getLast?_cons_or]
      have hkeq : kv.1 = k := beq_iff_eq.1 hk
      rw [show dictSet d kv.1 kv.2 = dictSet d k kv.2 from by rw [hkeq]]
      rw [alookup_dictSet_self, Option.or_assoc]
      rfl
    · have hfil : List.filter (fun kv => kv.1 == k) (kv :: l2) =
          List.filter (fun kv => kv.1 == k) l2 := by
        simp [List.filter_cons, Bool.of_not_eq_true hk]
      rw [hfil]
      have hne : ¬ k = kv.1 := by
        intro h2
        exact hk (beq_iff_eq.2 h2.symm)
      rw [alookup_dictSet_other d kv.1 kv.2 k hne]

theorem alookup_buildDict (docs : List (Str × Str)) (text : Str) :
    alookup (buildDict docs) text = (encounters docs text).getLast? := by
  unfold buildDict encounters
  rw [alookup_foldl]
  have : alookup [] text = none := rfl
  rw [this, Option.or_none]

theorem nodup_keys_dictSet (d : List (Str × Str × Nat)) (k : Str) (v : Str × Nat)
    (h : (d.map (fun kv => kv.1)).Nodup) :
    ((dictSet d k v).map (fun kv => kv.1)).Nodup := by
  unfold dictSet
  by_cases hany : d.any (fun kv => kv.1 == k) = true
  · rw [if_pos hany, List.map_map]
    have hcong : ∀ kv ∈ d,
        ((fun kv => kv.1) ∘ fun kv => if kv.1 == k then (k, v) else kv) kv =
          (fun (kv : Str × Str × Nat) => kv.1) kv := by
      intro kv _
      by_cases hk : (kv.1 == k) = true
      · simp only [Function.comp, if_pos hk]
        exact (beq_iff_eq.1 hk).symm
      · simp only [Function.comp, if_neg hk]
    rw [List.map_congr_left hcong]
    exact h
  · rw [if_neg hany, List.map_append]
    rw [List.nodup_append]
    refine ⟨h, List.nodup_singleton k, ?_⟩
    intro x hx hx2
    simp only [List.map_cons, List.map_nil, List.mem_singleton] at hx2
    subst hx2
    obtain ⟨kv, hkv, hkeq⟩ := List.mem_map.1 hx
    exact absurd (beq_iff_eq.2 hkeq)
      (by simpa using List.any_eq_false.1 (Bool.of_not_eq_true hany) kv hkv)

theorem nodup_keys_buildDict (docs : List (Str × Str)) :
    ((buildDict docs).map (fun kv => kv.1)).Nodup := by
  unfold buildDict
  have hgen : ∀ (l d : List (Str × Str × Nat)), (d.map (fun kv => kv.1)).Nodup →
      (((l.foldl (fun acc kv => dictSet acc kv.1 kv.2) d)).map
        (fun kv => kv.1)).Nodup := by
    intro l
    induction l with
    | nil => intro d hd; exact hd
    | cons kv l2 ih =>
      intro d hd
      rw [List.foldl_cons]
      exact ih _ (nodup_keys_dictSet d kv.1 kv.2 hd)
  exact hgen _ [] (by simp)

theorem countP_key_eq_one (k : Str) (v : Str × Nat) :
    ∀ (d : List (Str × Str × Nat)), (d.map (fun kv => kv.1)).Nodup →
      alookup d k = some v → d.countP (fun kv => kv.1 == k) = 1 := by
  intro d
  induction d with
  | nil => intro _ h; simp [alookup] at h
  | cons kv d2 ih =>
    intro hnd h
    by_cases hk : (kv.1 == k) = true
    · have hcnt : List.countP (fun kv => kv.1 == k) (kv :: d2) =
          List.countP (fun kv => kv.1 == k) d2 + 1 := by
        simp [List.countP_cons, hk]
      rw [hcnt]
      have hkeq : kv.1 = k := beq_iff_eq.1 hk
      have hz : d2.countP (fun kv => kv.1 == k) = 0 := by
        rw [List.countP_eq_zero]
        intro x hx hx2
        have hxk : x.1 = k := beq_iff_eq.1 hx2
        have hnotin : kv.1 ∉ d2.map (fun kv => kv.1) :=
          (List.nodup_cons.1 (by simpa using hnd)).1
        exact hnotin (List.mem_map.2 ⟨x, hx, by rw [hxk, hkeq]⟩)
      omega
    · have hcnt : List.countP (fun kv => kv.1 == k) (kv :: d2) =
          List.countP (fun kv => kv.1 == k) d2 := by
        simp [List.countP_cons, Bool.of_not_eq_true hk]
      rw [hcnt]
      refine ih ?_ ?_
      · exact (List.nodup_cons.1 (by simpa using hnd)).2
      · unfold alookup at h ⊢
        rw [List.find?_cons, Bool.of_not_eq_true hk] at h
        exact h

/-! ### Fence extraction -/

theorem opener_eq_cons : opener = tick :: "``rust".data := by decide

theorem opener_length : opener.length = 7 := by decide

theorem opener_pref_eq_false {c : Char} (rest : List Char) (hc : ¬ c = tick) :
    opener.isPrefixOf (c :: rest) = false := by
  rw [opener_eq_cons]
  simp only [List.isPrefixOf]
  rw [beq_eq_false_iff_ne.2 (fun h => hc h.symm)]
  rfl

theorem firstTriple_some_le :
    ∀ {l : List Char} {k : Nat}, firstTriple l = some k → k + 3 ≤ l.length := by
  intro l
  induction l with
  | nil => intro k h; simp [firstTriple] at h
  | cons c rest ih =>
    intro k h
    simp only [firstTriple] at h
    split at h
    · rename_i htake
      have hlen : (List.take 3 (c :: rest)).length = 3 := by rw [htake]; rfl
      rw [List.length_take] at hlen
      simp only [Option.some.injEq] at h
      omega
    · rcases hft : firstTriple rest with _ | k2
      · rw [hft] at h; simp at h
      · rw [hft] at h
        simp only [Option.map, Option.some.injEq] at h
        have := ih hft
        simp only [List.length_cons]
        omega

theorem firstTriple_cons (c : Char) (l : List Char) :
    firstTriple (c :: l) = if List.take 3 (c :: l) = [tick, tick, tick] then some 0
      else (firstTriple l).map (· + 1) := rfl

theorem firstTriple_append_some :
    ∀ {cs : List Char} {k : Nat} (ys : List Char),
      firstTriple cs = some k → firstTriple (cs ++ ys) = some k := by
  intro cs
  induction cs with
  | nil => intro k ys h; simp [firstTriple] at h
  | cons c rest ih =>
    intro k ys h
    rw [firstTriple_cons] at h
    rw [List.cons_append, firstTriple_cons]
    by_cases htake : List.take 3 (c :: rest) = [tick, tick, tick]
    · rw [if_pos htake] at h
      rcases rest with _ | ⟨x, rest2⟩
      · simp [List.take] at htake
      rcases rest2 with _ | ⟨y, rest3⟩
      · simp [List.take] at htake
      · simp only [List.take] at htake
        simp only [List.cons.injEq] at htake
        obtain ⟨rfl, rfl, rfl, -⟩ := htake
        rw [if_pos (by simp [List.take])]
        exact h
    · rw [if_neg htake] at h
      rcases hft : firstTriple rest with _ | k2
      · rw [hft] at h; simp at h
      · rw [hft] at h
        simp only [Option.map, Option.some.injEq] at h
        subst h
        have hlen := firstTriple_some_le hft
        rcases rest with _ | ⟨x, rest2⟩
        · simp at hlen
        rcases rest2 with _ | ⟨y, rest3⟩
        · simp at hlen
        · have htake2 : List.take 3 (c :: x :: y :: (rest3 ++ ys)) =
              List.take 3 (c :: x :: y :: rest3) := by simp [List.take]
          rw [show (x :: y :: rest3) ++ ys = x :: y :: (rest3 ++ ys) from rfl, htake2,
            if_neg htake]
          rw [show x :: y :: (rest3 ++ ys) = (x :: y :: rest3) ++ ys from rfl,
            ih ys hft]
          rfl

theorem firstTriple_okBody :
    ∀ {b : List Char}, okBody b = true →
      firstTriple (b ++ [tick, tick, tick]) = some b.length := by
  intro b
  induction b with
  | nil => intro _; decide
  | cons c b2 ih =>
    intro hok
    unfold okBody at hok
    rw [Bool.and_eq_true] at hok
    obtain ⟨hnone, hlast⟩ := hok
    have hnone2 : firstTriple (c :: b2) = none := by
      rcases hft : firstTriple (c :: b2) with _ | k
      · rfl
      · rw [hft] at hnone; simp at hnone
    rw [firstTriple_cons] at hnone2
    have htake : ¬ (List.take 3 (c :: b2) = [tick, tick, tick]) := by
      intro hcon
      rw [if_pos hcon] at hnone2
      simp at hnone2
    rw [if_neg htake] at hnone2
    have hftb2 : firstTriple b2 = none := by
      rcases hft : firstTriple b2 with _ | k
      · rfl
      · rw [hft] at hnone2; simp at hnone2
    rcases b2 with _ | ⟨x, b3⟩
    · have hc : ¬ c = tick := by
        intro hc
        rw [List.getLast?_singleton, hc] at hlast
        simp at hlast
      rw [List.cons_append, List.nil_append, firstTriple_cons]
      rw [if_neg (by simp [List.take]; intro h1; exact absurd h1 hc)]
      rw [show firstTriple [tick, tick, tick] = some 0 from by decide]
      rfl
    · rcases b3 with _ | ⟨y, b4⟩
      · have hx : ¬ x = tick := by
          intro hx
          rw [List.getLast?_cons_cons, List.getLast?_singleton, hx] at hlast
          simp at hlast
        rw [List.cons_append, firstTriple_cons]
        rw [if_neg (by simp [List.take]; intro _ h2; exact absurd h2 hx)]
        rw [List.cons_append, List.nil_append, firstTriple_cons]
        rw [if_neg (by simp [List.take]; intro h2; exact absurd h2 hx)]
        rw [show firstTriple [tick, tick, tick] = some 0 from by decide]
        rfl
      · have hokb2 : okBody (x :: y :: b4) = true := by
          unfold okBody
          rw [Bool.and_eq_true]
          constructor
          · rw [hftb2]; rfl
          · rwa [List.getLast?_cons_cons] at hlast
        have hihr := ih hokb2
        rw [List.cons_append, firstTriple_cons]
        have htake2 : List.take 3 (c :: ((x :: y :: b4) ++ [tick, tick, tick])) =
            List.take 3 (c :: x :: y :: b4) := by simp [List.take]
        rw [htake2, if_neg htake, hihr]
        rfl

theorem scanMdF_nil (fuel pos : Nat) : scanMdF fuel pos [] = [] := by
  cases fuel with
  | zero => rfl
  | succ n => rfl

theorem noTick_head {c : Char} {u : List Char} (h : noTick (c :: u) = true) :
    ¬ c = tick ∧ noTick u = true := by
  unfold noTick at h ⊢
  rw [List.all_cons, Bool.and_eq_true] at h
  exact ⟨by simpa using h.1, h.2⟩

theorem scanMdF_congr : ∀ (f1 f2 pos : Nat) (cs : List Char),
    cs.length < f1 → cs.length < f2 → scanMdF f1 pos cs = scanMdF f2 pos cs := by
  intro f1
  induction f1 with
  | zero => intro f2 pos cs h1 _; omega
  | succ n ih =>
    intro f2 pos cs h1 h2
    cases f2 with
    | zero => omega
    | succ m =>
      simp only [scanMdF]
      by_cases hop : opener.isPrefixOf cs = true
      · rw [if_pos hop, if_pos hop]
        rcases hft : firstTriple (cs.drop 7) with _ | k
        · dsimp only
          cases cs with
          | nil => rfl
          | cons c t =>
            dsimp only
            exact ih _ _ _ (by simp at h1; omega) (by simp at h2; omega)
        · dsimp only
          have hk := firstTriple_some_le hft
          rw [List.length_drop] at hk
          congr 1
          apply ih
          · rw [List.length_drop]; omega
          · rw [List.length_drop]; omega
      · rw [if_neg hop, if_neg hop]
        cases cs with
        | nil => rfl
        | cons c t =>
          dsimp only
          exact ih _ _ _ (by simp at h1; omega) (by simp at h2; omega)

theorem scanMdF_skip : ∀ (u : List Char) {fuel pos : Nat} (v : List Char),
    noTick u = true →
    scanMdF (u.length + fuel) pos (u ++ v) = scanMdF fuel (pos + u.length) v := by
  intro u
  induction u with
  | nil => intro fuel pos v _; simp
  | cons c u2 ih =>
    intro fuel pos v hnt
    obtain ⟨hc, hnt2⟩ := noTick_head hnt
    have harith : (c :: u2).length + fuel = (u2.length + fuel) + 1 := by
      simp; omega
    rw [harith, show (c :: u2) ++ v = c :: (u2 ++ v) from rfl]
    simp only [scanMdF]
    rw [opener_pref_eq_false _ hc, if_neg (by simp)]
    rw [ih v hnt2]
    have harith2 : (pos + 1) + u2.length = pos + (c :: u2).length := by
      simp; omega
    rw [harith2]

theorem scanMdF_block {b : List Char} (rest : List Char) {fuel pos : Nat}
    (hok : okBody b = true) :
    scanMdF (fuel + 1) pos (opener ++ (b ++ ([tick, tick, tick] ++ rest))) =
      (pos, b) :: scanMdF fuel (pos + 7 + b.length + 3) rest := by
  simp only [scanMdF]
  rw [if_pos (isPrefixOf_append_self opener _)]
  have hdrop7 : (opener ++ (b ++ ([tick, tick, tick] ++ rest))).drop 7 =
      b ++ ([tick, tick, tick] ++ rest) := by
    rw [show (7 : Nat) = opener.length from opener_length.symm, List.drop_left]
  rw [hdrop7]
  have hft : firstTriple (b ++ ([tick, tick, tick] ++ rest)) = some b.length := by
    have h1 := firstTriple_okBody hok
    have h2 := firstTriple_append_some rest h1
    rwa [List.append_assoc] at h2
  rw [hft]
  dsimp only
  rw [List.take_left]
  congr 1
  have harith : 7 + b.length + 3 = opener.length + (b.length + 3) := by
    rw [opener_length]; omega
  rw [harith, List.drop_append, List.drop_append]
  rfl

theorem scanMdF_post (pos fuel : Nat) (post : List Char)
    (hpost : noTick post = true) (hf : post.length < fuel) :
    scanMdF fuel pos post = [] := by
  rw [scanMdF_congr fuel (post.length + 1) pos post hf (by omega)]
  have h1 : scanMdF (post.length + 1) pos post =
      scanMdF (post.length + 1) pos (post ++ []) := by rw [List.append_nil]
  rw [h1, scanMdF_skip post [] hpost, scanMdF_nil]

theorem scanMd_one_block_tail (pos : Nat) (b2 post : List Char)
    (hpost : noTick post = true) (hb2 : okBody b2 = true) :
    scanMdF ((opener ++ (b2 ++ ([tick, tick, tick] ++ post))).length + 1) pos
      (opener ++ (b2 ++ ([tick, tick, tick] ++ post))) = [(pos, b2)] := by
  rw [scanMdF_block post hb2]
  rw [scanMdF_post _ _ _ hpost ?_]
  simp only [List.length_append, opener_length]
  omega

theorem scanMd_two_blocks (pre b1 mid b2 post : List Char)
    (hpre : noTick pre = true) (hmid : noTick mid = true) (hpost : noTick post = true)
    (hb1 : okBody b1 = true) (hb2 : okBody b2 = true) :
    scanMd (pre ++ (opener ++ (b1 ++ ([tick, tick, tick] ++
        (mid ++ (opener ++ (b2 ++ ([tick, tick, tick] ++ post)))))))) =
      [(pre.length, b1), (pre.length + 7 + b1.length + 3 + mid.length, b2)] := by
  have hR2 : ∀ p2, scanMdF
      ((mid ++ (opener ++ (b2 ++ ([tick, tick, tick] ++ post)))).length + 1) p2
      (mid ++ (opener ++ (b2 ++ ([tick, tick, tick] ++ post)))) =
      [(p2 + mid.length, b2)] := by
    intro p2
    have hlen : (mid ++ (opener ++ (b2 ++ ([tick, tick, tick] ++ post)))).length + 1 =
        mid.length + ((opener ++ (b2 ++ ([tick, tick, tick] ++ post))).length + 1) := by
      simp only [List.length_append]
      omega
    rw [hlen, scanMdF_skip mid _ hmid, scanMd_one_block_tail _ _ _ hpost hb2]
  have hR1 : ∀ p1, scanMdF
      ((opener ++ (b1 ++ ([tick, tick, tick] ++
        (mid ++ (opener ++ (b2 ++ ([tick, tick, tick] ++ post))))))).length + 1) p1
      (opener ++ (b1 ++ ([tick, tick, tick] ++
        (mid ++ (opener ++ (b2 ++ ([tick, tick, tick] ++ post))))))) =
      [(p1, b1), (p1 + 7 + b1.length + 3 + mid.length, b2)] := by
    intro p1
    rw [scanMdF_block _ hb1]
    rw [scanMdF_congr
      ((opener ++ (b1 ++ ([tick, tick, tick] ++
        (mid ++ (opener ++ (b2 ++ ([tick, tick, tick] ++ post))))))).length)
      ((mid ++ (opener ++ (b2 ++ ([tick, tick, tick] ++ post)))).length + 1)
      _ _ ?_ ?_]
    · rw [hR2]
    · simp only [List.length_append, opener_length]
      omega
    · omega
  unfold scanMd
  have hlen : (pre ++ (opener ++ (b1 ++ ([tick, tick, tick] ++
      (mid ++ (opener ++ (b2 ++ ([tick, tick, tick] ++ post)))))))).length + 1 =
      pre.length + ((opener ++ (b1 ++ ([tick, tick, tick] ++
        (mid ++ (opener ++ (b2 ++ ([tick, tick, tick] ++ post))))))).length + 1) := by
    simp only [List.length_append]
    omega
  rw [hlen, scanMdF_skip pre _ hpre, hR1]
  simp

/-! ### Structure of the combined pattern string -/

theorem consHead_ne_nil (xs : List Char) (l : List (List Char)) :
    consHead xs l ≠ [] := by
  cases l <;> simp [consHead]

theorem consHead_consHead (xs ys : List Char) (l : List (List Char)) :
    consHead xs (consHead ys l) = consHead (xs ++ ys) l := by
  cases l <;> simp [consHead]

theorem escOK_pair (c2 : Char) (X : List Char) :
    escOK ('\\' :: c2 :: X) = escOK X := by
  simp [escOK]

theorem countGroups_pair (c2 : Char) (X : List Char) :
    countGroups ('\\' :: c2 :: X) = countGroups X := by
  simp [countGroups]

theorem noBar_pair (c2 : Char) (X : List Char) :
    noBar ('\\' :: c2 :: X) = noBar X := by
  simp [noBar]

theorem escOK_plain {c : Char} (X : List Char) (hc : ¬ c = '\\') :
    escOK (c :: X) = escOK X := by
  rw [escOK.eq_def]
  dsimp only
  rw [if_neg hc]

theorem countGroups_plain {c : Char} (X : List Char) (hc : ¬ c = '\\')
    (hp : ¬ c = '(') : countGroups (c :: X) = countGroups X := by
  rw [countGroups.eq_def]
  dsimp only
  rw [if_neg hc, if_neg hp]

theorem countGroups_open (X : List Char) :
    countGroups ('(' :: X) = countGroups X + 1 := by
  rw [countGroups.eq_def]
  dsimp only
  rw [if_neg (by decide), if_pos rfl]

theorem splitTop_bar (r2 : List Char) : splitTop ('|' :: r2) = [] :: splitTop r2 := by
  rw [splitTop.eq_def]
  dsimp only
  rw [if_neg (by decide), if_pos rfl]

theorem noBar_plain {c : Char} (X : List Char) (hc : ¬ c = '\\') (hb : ¬ c = '|') :
    noBar (c :: X) = noBar X := by
  rw [noBar.eq_def]
  dsimp only
  rw [if_neg hc]
  simp [beq_eq_false_iff_ne.2 hb]

theorem reEscape_props : ∀ (l X : List Char),
    escOK (reEscape l ++ X) = escOK X ∧
      countGroups (reEscape l ++ X) = countGroups X ∧
      noBar (reEscape l ++ X) = noBar X := by
  intro l
  induction l with
  | nil => intro X; exact ⟨rfl, rfl, rfl⟩
  | cons c l2 ih =>
    intro X
    have hstep : reEscape (c :: l2) ++ X = reEscapeChar c ++ (reEscape l2 ++ X) := by
      simp [reEscape, List.flatMap_cons, List.append_assoc]
    rw [hstep]
    unfold reEscapeChar
    by_cases h : specials.contains c
    · rw [if_pos h]
      rw [show (['\\', c] : List Char) ++ (reEscape l2 ++ X) =
        '\\' :: c :: (reEscape l2 ++ X) from rfl]
      rw [escOK_pair, countGroups_pair, noBar_pair]
      exact ih X
    · rw [if_neg h]
      have hc : ¬ c = '\\' := by
        intro hc; subst hc; exact h (by decide)
      have hp : ¬ c = '(' := by
        intro hp; subst hp; exact h (by decide)
      have hb : ¬ c = '|' := by
        intro hb; subst hb; exact h (by decide)
      rw [show ([c] : List Char) ++ (reEscape l2 ++ X) =
        c :: (reEscape l2 ++ X) from rfl]
      rw [escOK_plain _ hc, countGroups_plain _ hc hp, noBar_plain _ hc hb]
      exact ih X

theorem plain_prepend : ∀ (u : List Char),
    (∀ c ∈ u, ¬ c = '\\' ∧ ¬ c = '(' ∧ ¬ c = '|') → ∀ (X : List Char),
      escOK (u ++ X) = escOK X ∧
        countGroups (u ++ X) = countGroups X ∧
        noBar (u ++ X) = noBar X := by
  intro u
  induction u with
  | nil => intro _ X; simp
  | cons c u2 ih =>
    intro hu X
    obtain ⟨hc, hp, hb⟩ := hu c (List.mem_cons_self _ _)
    rw [List.cons_append]
    rw [escOK_plain _ hc, countGroups_plain _ hc hp, noBar_plain _ hc hb]
    exact ih (fun x hx => hu x (List.mem_cons_of_mem _ hx)) X

theorem linePat_props (l : List Char) (X : List Char) :
    escOK (linePat l ++ X) = escOK X ∧
      countGroups (linePat l ++ X) = countGroups X ∧
      noBar (linePat l ++ X) = noBar X := by
  unfold linePat
  rw [List.append_assoc]
  have h1 := plain_prepend linePrefixPat (by decide) (reEscape l ++ X)
  have h2 := reEscape_props l X
  refine ⟨?_, ?_, ?_⟩
  · rw [h1.1, h2.1]
  · rw [h1.2.1, h2.2.1]
  · rw [h1.2.2, h2.2.2]

theorem joined_props : ∀ (ls : List (List Char)) (X : List Char),
    escOK (joinSep ['\\', 'n'] (ls.map linePat) ++ X) = escOK X ∧
      countGroups (joinSep ['\\', 'n'] (ls.map linePat) ++ X) = countGroups X ∧
      noBar (joinSep ['\\', 'n'] (ls.map linePat) ++ X) = noBar X := by
  intro ls
  induction ls with
  | nil => intro X; simp [joinSep]
  | cons l ls2 ih =>
    intro X
    cases ls2 with
    | nil => simpa [joinSep] using linePat_props l X
    | cons l2 t =>
      rw [List.map_cons, List.map_cons,
        show joinSep ['\\', 'n'] (linePat l :: linePat l2 :: t.map linePat) =
          linePat l ++ ['\\', 'n'] ++ joinSep ['\\', 'n'] (linePat l2 :: t.map linePat)
          from rfl]
      rw [List.append_assoc, List.append_assoc]
      rw [show (['\\', 'n'] : List Char) ++
          (joinSep ['\\', 'n'] (linePat l2 :: t.map linePat) ++ X) =
          '\\' :: 'n' :: (joinSep ['\\', 'n'] (linePat l2 :: t.map linePat) ++ X)
          from rfl]
      have h1 := linePat_props l
        ('\\' :: 'n' :: (joinSep ['\\', 'n'] (linePat l2 :: t.map linePat) ++ X))
      have h2 := ih X
      rw [List.map_cons] at h2
      refine ⟨?_, ?_, ?_⟩
      · rw [h1.1, escOK_pair, h2.1]
      · rw [h1.2.1, countGroups_pair, h2.2.1]
      · rw [h1.2.2, noBar_pair, h2.2.2]

theorem groupPat_props (e : Str) (X : List Char) :
    escOK (groupPat e ++ X) = escOK X ∧
      countGroups (groupPat e ++ X) = countGroups X + 1 ∧
      noBar (groupPat e ++ X) = noBar X := by
  unfold groupPat exPatBody
  rw [show ('(' :: (joinSep ['\\', 'n'] ((splitLines e).map linePat) ++ [')'])) ++ X =
    '(' :: (joinSep ['\\', 'n'] ((splitLines e).map linePat) ++ (')' :: X)) from by
      simp [List.append_assoc]]
  have h1 := joined_props (splitLines e) (')' :: X)
  have hparen : (¬ (')' : Char) = '\\') ∧ (¬ (')' : Char) = '(') ∧
      (¬ (')' : Char) = '|') := by decide
  refine ⟨?_, ?_, ?_⟩
  · rw [escOK_plain _ (by decide), h1.1, escOK_plain _ hparen.1]
  · rw [countGroups_open, h1.2.1, countGroups_plain _ hparen.1 hparen.2.1]
  · rw [noBar_plain _ (by decide) (by decide), h1.2.2,
      noBar_plain _ hparen.1 hparen.2.2]

theorem countGroups_combined : ∀ (exs : List (Str × Nat × Str)),
    countGroups (combinedPat exs) = exs.length := by
  intro exs
  induction exs with
  | nil => rfl
  | cons t rest ih =>
    cases rest with
    | nil =>
      show countGroups (joinSep ['|'] [groupPat t.2.2]) = 1
      rw [show joinSep ['|'] [groupPat t.2.2] = groupPat t.2.2 from rfl]
      rw [← List.append_nil (groupPat t.2.2)]
      rw [(groupPat_props t.2.2 []).2.1]
      rfl
    | cons t2 r =>
      show countGroups (joinSep ['|']
        (groupPat t.2.2 :: groupPat t2.2.2 :: r.map (fun x => groupPat x.2.2))) = _
      rw [show joinSep ['|']
          (groupPat t.2.2 :: groupPat t2.2.2 :: r.map (fun x => groupPat x.2.2)) =
          groupPat t.2.2 ++ ['|'] ++ joinSep ['|']
            (groupPat t2.2.2 :: r.map (fun x => groupPat x.2.2)) from rfl]
      rw [List.append_assoc,
        show (['|'] : List Char) ++ joinSep ['|']
            (groupPat t2.2.2 :: r.map (fun x => groupPat x.2.2)) =
          '|' :: joinSep ['|']
            (groupPat t2.2.2 :: r.map (fun x => groupPat x.2.2)) from rfl]
      rw [(groupPat_props t.2.2 _).2.1,
        countGroups_plain _ (by decide) (by decide)]
      have := ih
      unfold combinedPat at this
      rw [List.map_cons] at this
      rw [this]
      simp

theorem splitTop_ne_nil : ∀ (s : List Char), splitTop s ≠ [] := by
  intro s
  induction s using splitTop.induct with
  | case1 => simp [splitTop]
  | case2 => simp [splitTop]
  | case3 c2 r2 _ =>
    rw [show splitTop ('\\' :: c2 :: r2) =
      consHead ['\\', c2] (splitTop r2) from rfl]
    exact consHead_ne_nil _ _
  | case4 r2 _ _ =>
    rw [splitTop_bar]
    simp
  | case5 c2 r2 hc hb _ =>
    rw [show splitTop (c2 :: r2) = consHead [c2] (splitTop r2) from by
      rw [splitTop.eq_def]
      dsimp only
      rw [if_neg hc, if_neg hb]]
    exact consHead_ne_nil _ _

theorem splitTop_append : ∀ (a b : List Char), escOK a = true → noBar a = true →
    splitTop (a ++ b) = consHead a (splitTop b) := by
  intro a
  induction a using splitTop.induct with
  | case1 =>
    intro b _ _
    rcases hsb : splitTop b with _ | ⟨h, t⟩
    · exact absurd hsb (splitTop_ne_nil b)
    · simp [consHead, hsb]
  | case2 => intro b h _; simp [escOK] at h
  | case3 c2 r2 ih =>
    intro b hesc hbar
    rw [escOK_pair] at hesc
    rw [noBar_pair] at hbar
    rw [show ('\\' :: c2 :: r2) ++ b = '\\' :: c2 :: (r2 ++ b) from rfl]
    rw [show splitTop ('\\' :: c2 :: (r2 ++ b)) =
      consHead ['\\', c2] (splitTop (r2 ++ b)) from rfl]
    rw [ih b hesc hbar, consHead_consHead]
    rfl
  | case4 r2 _ _ =>
    intro b _ hbar
    rw [noBar.eq_def] at hbar
    dsimp only at hbar
    rw [if_neg (by decide)] at hbar
    simp at hbar
  | case5 c2 r2 hc hb ih =>
    intro b hesc hbar
    rw [escOK_plain _ hc] at hesc
    rw [noBar_plain _ hc hb] at hbar
    rw [show (c2 :: r2) ++ b = c2 :: (r2 ++ b) from rfl]
    rw [show splitTop (c2 :: (r2 ++ b)) = consHead [c2] (splitTop (r2 ++ b)) from by
      rw [splitTop.eq_def]
      dsimp only
      rw [if_neg hc, if_neg hb]]
    rw [ih b hesc hbar, consHead_consHead]
    rfl

theorem splitTop_joinSep : ∀ (gs : List (List Char)),
    (∀ g ∈ gs, escOK g = true ∧ noBar g = true) → gs ≠ [] →
      splitTop (joinSep ['|'] gs) = gs := by
  intro gs
  induction gs with
  | nil => intro _ h; exact absurd rfl h
  | cons g rest ih =>
    intro hall _
    obtain ⟨hesc, hbar⟩ := hall g (List.mem_cons_self _ _)
    cases rest with
    | nil =>
      rw [show joinSep ['|'] [g] = g from rfl]
      rw [← List.append_nil g, splitTop_append g [] hesc hbar]
      rw [show splitTop [] = [[]] from rfl]
      simp [consHead]
    | cons g2 t =>
      rw [show joinSep ['|'] (g :: g2 :: t) = g ++ ['|'] ++ joinSep ['|'] (g2 :: t)
        from rfl]
      rw [List.append_assoc,
        show (['|'] : List Char) ++ joinSep ['|'] (g2 :: t) =
          '|' :: joinSep ['|'] (g2 :: t) from rfl]
      rw [splitTop_append g _ hesc hbar]
      rw [splitTop_bar]
      rw [ih (fun x hx => hall x (List.mem_cons_of_mem _ hx)) (by simp)]
      simp [consHead]

theorem combined_alternatives (exs : List (Str × Nat × Str)) (hne : exs ≠ []) :
    splitTop (combinedPat exs) = exs.map (fun t => groupPat t.2.2) := by
  unfold combinedPat
  refine splitTop_joinSep _ ?_ (by simpa using hne)
  intro g hg
  obtain ⟨t, _, rfl⟩ := List.mem_map.1 hg
  have h := groupPat_props t.2.2 []
  rw [List.append_nil] at h
  exact ⟨by rw [h.1]; rfl, by rw [h.2.2]; rfl⟩

/-! ### Final bridges -/

theorem pats_getElem (docs : List (Str × Str)) (g : Nat)
    (hg : g < (rustExamples docs).length) :
    (pats docs)[g]? = some (exForms ((rustExamples docs).get ⟨g, hg⟩).2.2) := by
  unfold pats patsOf
  rw [List.getElem?_map, List.getElem?_eq_getElem hg]
  simp [List.get_eq_getElem]

theorem scanGroups_complete (docs : List (Str × Str)) (s : List Char)
    (g p : Nat) (f : List Char) (hocc : IsOcc (pats docs) s g p f)
    (hdisj : disjB (pats docs) s = true) : g ∈ scanGroups (pats docs) s := by
  unfold scanGroups
  exact scanF_complete _ _ _ _ _ _ (by omega) (pats_forms_ne docs)
    (disjB_spec (pats_forms_ne docs) hdisj) hocc

theorem presence_sets_flag (docs files : List (Str × Str)) (g p : Nat)
    (ms : List Char) (file : Str × Str)
    (hg : g < (rustExamples docs).length)
    (hfile : file ∈ files)
    (hms : OkMarkers ms)
    (hlen : ms.length = (splitLines ((rustExamples docs).get ⟨g, hg⟩).2.2).length)
    (hocc : (oneSpaceForm ms ((rustExamples docs).get ⟨g, hg⟩).2.2).isPrefixOf
      (file.2.drop p) = true)
    (hdisj : disjB (pats docs) file.2 = true) :
    foundFlag docs files g = true := by
  have hform := oneSpaceForm_mem hlen hms
  have hocc2 : IsOcc (pats docs) file.2 g p
      (oneSpaceForm ms ((rustExamples docs).get ⟨g, hg⟩).2.2) :=
    ⟨exForms ((rustExamples docs).get ⟨g, hg⟩).2.2, pats_getElem docs g hg, hform, hocc⟩
  exact foundFlag_of_mem hfile (scanGroups_complete docs file.2 g p _ hocc2 hdisj)

theorem scanGroupsF_nil_pats : ∀ (fuel : Nat) (s : List Char),
    scanGroupsF fuel [] s = [] := by
  intro fuel
  induction fuel with
  | zero => intro s; rfl
  | succ n ih =>
    intro s
    simp only [scanGroupsF]
    rw [show firstMatch [] s = none from rfl]
    dsimp only
    cases s with
    | nil => rfl
    | cons c t => exact ih t

/-! ### Claims -/

/-- Claim C1, counterexample: the claim fails as stated. With examples
`"a"` and `"a\nb"` and the source file `"//! a\n//! b"`, the lines of
`"a\nb"`, each prefixed by `//!` and exactly one space, appear
contiguously and in order, yet the example's found-flag stays false and
it is reported missing: the leftmost non-overlapping match of the
combined pattern consumes `"//! a"` for the example `"a"` first. -/
theorem c1_presence_counterexample :
    (rustExamples [("a.md".data, "```rust\na\n```\n```rust\na\nb\n```".data)])[1]? =
      some ("a.md".data, 14, "a\nb".data) ∧
    oneSpaceForm ['!', '!'] ("a\nb".data) = "//! a\n//! b".data ∧
    (oneSpaceForm ['!', '!'] ("a\nb".data)).isPrefixOf
      (("//! a\n//! b".data).drop 0) = true ∧
    foundFlag [("a.md".data, "```rust\na\n```\n```rust\na\nb\n```".data)]
      [("x.rs".data, "//! a\n//! b".data)] 1 = false ∧
    1 ∈ missingIdx [("a.md".data, "```rust\na\n```\n```rust\na\nb\n```".data)]
      [("x.rs".data, "//! a\n//! b".data)] := by
  decide

/-- Claim C1 (amended): presence detection holds provided the
comment-prefixed occurrences of the examples in the source file are
pairwise non-overlapping. For every example in the Ordered Example
List, if each of its lines, prefixed with an accepted comment marker
and exactly one following space, appears contiguously and in order in
at least one source file, and no two occurrences of examples in that
file overlap, then after the source scan the example's found-flag is
true and the example is excluded from the missing report; this holds
even when a single source file contains occurrences of several
distinct examples. -/
theorem c1_presence_detection (docs files : List (Str × Str)) (g p : Nat)
    (ms : List Char) (file : Str × Str)
    (hg : g < (rustExamples docs).length)
    (hfile : file ∈ files)
    (hms : OkMarkers ms)
    (hlen : ms.length = (splitLines ((rustExamples docs).get ⟨g, hg⟩).2.2).length)
    (hocc : (oneSpaceForm ms ((rustExamples docs).get ⟨g, hg⟩).2.2).isPrefixOf
      (file.2.drop p) = true)
    (hdisj : disjB (pats docs) file.2 = true) :
    foundFlag docs files g = true ∧ g ∉ missingIdx docs files := by
  have hflag := presence_sets_flag docs files g p ms file hg hfile hms hlen hocc hdisj
  exact ⟨hflag, not_missing_of_found hflag⟩

/-- Witness for C1 (amended): two one-line examples from two files both
occur, non-overlapping, in one source file; the first example's flag is
set and it is not reported. -/
theorem c1_presence_detection_witness :
    (0 < (rustExamples [("a.md".data, "```rust\nx1\n```".data),
        ("b.md".data, "```rust\ny2\n```".data)]).length) ∧
    disjB (pats [("a.md".data, "```rust\nx1\n```".data),
        ("b.md".data, "```rust\ny2\n```".data)]) ("//! x1\n//! y2".data) = true ∧
    (foundFlag [("a.md".data, "```rust\nx1\n```".data),
        ("b.md".data, "```rust\ny2\n```".data)]
      [("x.rs".data, "//! x1\n//! y2".data)] 0 = true ∧
      0 ∉ missingIdx [("a.md".data, "```rust\nx1\n```".data),
        ("b.md".data, "```rust\ny2\n```".data)]
        [("x.rs".data, "//! x1\n//! y2".data)]) :=
  ⟨by decide, by decide,
    c1_presence_detection
      [("a.md".data, "```rust\nx1\n```".data), ("b.md".data, "```rust\ny2\n```".data)]
      [("x.rs".data, "//! x1\n//! y2".data)] 0 0 ['!']
      ("x.rs".data, "//! x1\n//! y2".data)
      (by decide) (by decide) (by decide) (by decide) (by decide) (by decide)⟩

/-- Claim C2: if the missing count is positive the run prints the
summary line `"<N> missing markdown examples"` and exits 1; if it is
zero the run exits 0; and in the concrete 5-examples-2-absent scenario
the run exits 1 with summary line `"2 missing markdown examples"`. -/
theorem c2_exit_contract (docs files : List (Str × Str)) :
    ((0 < badCount docs files →
      exitCode docs files = 1 ∧
        summaryOut docs files = some (natToChars (badCount docs files) ++
          (" missing markdown examples").data)) ∧
      (badCount docs files = 0 → exitCode docs files = 0)) ∧
    (badCount
        [("a.md".data,
          "```rust\na1\n```\n```rust\nb2\n```\n```rust\nc3\n```\n```rust\nd4\n```\n```rust\ne5\n```".data)]
        [("x.rs".data, "//! a1\n//! b2\n//! c3".data)] = 2 ∧
      exitCode
        [("a.md".data,
          "```rust\na1\n```\n```rust\nb2\n```\n```rust\nc3\n```\n```rust\nd4\n```\n```rust\ne5\n```".data)]
        [("x.rs".data, "//! a1\n//! b2\n//! c3".data)] = 1 ∧
      summaryOut
        [("a.md".data,
          "```rust\na1\n```\n```rust\nb2\n```\n```rust\nc3\n```\n```rust\nd4\n```\n```rust\ne5\n```".data)]
        [("x.rs".data, "//! a1\n//! b2\n//! c3".data)] =
        some ("2 missing markdown examples".data)) := by
  refine ⟨⟨?_, ?_⟩, by decide⟩
  · intro h
    constructor
    · unfold exitCode
      rw [if_pos h]
    · unfold summaryOut
      rw [if_pos h]
  · intro h
    unfold exitCode
    rw [if_neg (by omega)]

/-- Witness for C2: the 5-examples-2-absent scenario discharges the
positive-count hypothesis. -/
theorem c2_exit_contract_witness :
    0 < badCount
      [("a.md".data,
        "```rust\na1\n```\n```rust\nb2\n```\n```rust\nc3\n```\n```rust\nd4\n```\n```rust\ne5\n```".data)]
      [("x.rs".data, "//! a1\n//! b2\n//! c3".data)] ∧
    (exitCode
        [("a.md".data,
          "```rust\na1\n```\n```rust\nb2\n```\n```rust\nc3\n```\n```rust\nd4\n```\n```rust\ne5\n```".data)]
        [("x.rs".data, "//! a1\n//! b2\n//! c3".data)] = 1 ∧
      summaryOut
        [("a.md".data,
          "```rust\na1\n```\n```rust\nb2\n```\n```rust\nc3\n```\n```rust\nd4\n```\n```rust\ne5\n```".data)]
        [("x.rs".data, "//! a1\n//! b2\n//! c3".data)] =
        some (natToChars (badCount
          [("a.md".data,
            "```rust\na1\n```\n```rust\nb2\n```\n```rust\nc3\n```\n```rust\nd4\n```\n```rust\ne5\n```".data)]
          [("x.rs".data, "//! a1\n//! b2\n//! c3".data)]) ++
          (" missing markdown examples").data)) :=
  ⟨by decide,
    (c2_exit_contract
      [("a.md".data,
        "```rust\na1\n```\n```rust\nb2\n```\n```rust\nc3\n```\n```rust\nd4\n```\n```rust\ne5\n```".data)]
      [("x.rs".data, "//! a1\n//! b2\n//! c3".data)]).1.1 (by decide)⟩

/-- Claim C3, counterexample: the claim fails as stated. When the same
trimmed text `"q"` occurs at offsets 0 and 14 of one file, the dict
retains the last-encountered pair `("a.md", 14)`, not the
first-encountered `("a.md", 0)`. -/
theorem c3_dedup_counterexample :
    encounters [("a.md".data, "```rust\nq\n```\n```rust\nq\n```".data)] ("q".data) =
      [("a.md".data, 0), ("a.md".data, 14)] ∧
    buildDict [("a.md".data, "```rust\nq\n```\n```rust\nq\n```".data)] =
      [("q".data, ("a.md".data, 14))] ∧
    alookup (buildDict [("a.md".data, "```rust\nq\n```\n```rust\nq\n```".data)])
      ("q".data) = some ("a.md".data, 14) ∧
    (("a.md".data, 14) : Str × Nat) ≠ ("a.md".data, 0) := by
  decide

/-- Claim C3 (amended): when the same trimmed example text occurs more
than once (same or different files), the working map retains exactly
one entry for that text, and the `(path, offset)` pair retained is the
last-encountered occurrence; later encounters overwrite the stored
pair but do not create a second entry. -/
theorem c3_dedup_last_wins (docs : List (Str × Str)) (text : Str)
    (hne : encounters docs text ≠ []) :
    (buildDict docs).countP (fun kv => kv.1 == text) = 1 ∧
    alookup (buildDict docs) text = (encounters docs text).getLast? := by
  have hlook := alookup_buildDict docs text
  refine ⟨?_, hlook⟩
  obtain ⟨v, hv⟩ := Option.isSome_iff_exists.1 (List.getLast?_isSome.2 hne)
  exact countP_key_eq_one text v (buildDict docs) (nodup_keys_buildDict docs)
    (by rw [hlook, hv])

/-- Witness for C3 (amended): the duplicated `"q"` example has exactly
one dict entry, holding the last-encountered location. -/
theorem c3_dedup_last_wins_witness :
    encounters [("a.md".data, "```rust\nq\n```\n```rust\nq\n```".data)] ("q".data) ≠ [] ∧
    ((buildDict [("a.md".data, "```rust\nq\n```\n```rust\nq\n```".data)]).countP
        (fun kv => kv.1 == ("q".data)) = 1 ∧
      alookup (buildDict [("a.md".data, "```rust\nq\n```\n```rust\nq\n```".data)])
        ("q".data) =
        (encounters [("a.md".data, "```rust\nq\n```\n```rust\nq\n```".data)]
          ("q".data)).getLast?) :=
  ⟨by decide,
    c3_dedup_last_wins [("a.md".data, "```rust\nq\n```\n```rust\nq\n```".data)]
      ("q".data) (by decide)⟩

/-- Claim C4: for every non-empty deduplicated example set, the Ordered
Example List is sorted by origin path then offset, and the compiled
combined pattern has exactly N capture groups (N = number of
examples), whose alternatives are, in order, exactly the per-example
group strings, so group index equals list index; the matcher list used
by the source scan is the per-example form list in the same order. -/
theorem c4_order_and_groups (docs : List (Str × Str))
    (hne : rustExamples docs ≠ []) :
    (rustExamples docs).Pairwise pathOffLe ∧
    countGroups (combinedPat (rustExamples docs)) = (rustExamples docs).length ∧
    splitTop (combinedPat (rustExamples docs)) =
      (rustExamples docs).map (fun t => groupPat t.2.2) ∧
    pats docs = (rustExamples docs).map (fun t => exForms t.2.2) := by
  refine ⟨?_, countGroups_combined _, combined_alternatives _ hne, rfl⟩
  unfold rustExamples
  exact pairwise_sortT _

/-- Witness for C4 at a two-example corpus. -/
theorem c4_order_and_groups_witness :
    (rustExamples [("a.md".data, "```rust\nw\n```".data),
        ("b.md".data, "```rust\nv(u)\n```".data)] ≠ []) ∧
    ((rustExamples [("a.md".data, "```rust\nw\n```".data),
        ("b.md".data, "```rust\nv(u)\n```".data)]).Pairwise pathOffLe ∧
      countGroups (combinedPat (rustExamples [("a.md".data, "```rust\nw\n```".data),
        ("b.md".data, "```rust\nv(u)\n```".data)])) =
        (rustExamples [("a.md".data, "```rust\nw\n```".data),
          ("b.md".data, "```rust\nv(u)\n```".data)]).length ∧
      splitTop (combinedPat (rustExamples [("a.md".data, "```rust\nw\n```".data),
        ("b.md".data, "```rust\nv(u)\n```".data)])) =
        (rustExamples [("a.md".data, "```rust\nw\n```".data),
          ("b.md".data, "```rust\nv(u)\n```".data)]).map (fun t => groupPat t.2.2) ∧
      pats [("a.md".data, "```rust\nw\n```".data),
        ("b.md".data, "```rust\nv(u)\n```".data)] =
        (rustExamples [("a.md".data, "```rust\nw\n```".data),
          ("b.md".data, "```rust\nv(u)\n```".data)]).map (fun t => exForms t.2.2)) :=
  ⟨by decide,
    c4_order_and_groups [("a.md".data, "```rust\nw\n```".data),
      ("b.md".data, "```rust\nv(u)\n```".data)] (by decide)⟩

/-- Claim C5: literal-character safety. A found-flag becomes true only
when an exactly identical comment-prefixed occurrence of the example
exists in some source file; in particular the example `"a.b"` is not
matched by the superficially similar source text `"//! axb"` (which
would match if the period were a pattern wildcard). -/
theorem c5_literal_safety :
    (∀ (docs files : List (Str × Str)) (g : Nat),
      foundFlag docs files g = true →
        ∃ file ∈ files, ∃ p f, IsOcc (pats docs) file.2 g p f) ∧
    foundFlag [("a.md".data, "```rust\na.b\n```".data)]
      [("x.rs".data, "//! axb".data)] 0 = false ∧
    foundFlag [("a.md".data, "```rust\na.b\n```".data)]
      [("x.rs".data, "//! a.b".data)] 0 = true :=
  ⟨fun _ _ _ h => found_sound h, by decide, by decide⟩

/-- Witness for C5: the exact occurrence of `"a.b"` yields a true flag,
and the soundness direction produces the exact occurrence. -/
theorem c5_literal_safety_witness :
    foundFlag [("a.md".data, "```rust\na.b\n```".data)]
      [("x.rs".data, "//! a.b".data)] 0 = true ∧
    (∃ file ∈ [(("x.rs".data : Str), ("//! a.b".data : Str))], ∃ p f,
      IsOcc (pats [("a.md".data, "```rust\na.b\n```".data)]) file.2 0 p f) :=
  ⟨by decide,
    c5_literal_safety.1 [("a.md".data, "```rust\na.b\n```".data)]
      [("x.rs".data, "//! a.b".data)] 0 (by decide)⟩

/-- Claim C6, counterexample: the claim fails as stated. The example
`"x"` has a `//!`-marker occurrence at position 1 of the source
`"///!x"`, and the same occurrence with the `///` marker at position 1
of `"////x"`; the run over the second file sets the flag true, but the
run over the first leaves it false (the occurrence is shadowed by a
higher-priority match of the example `"!x"`). -/
theorem c6_marker_counterexample :
    (rustExamples [("a.md".data, "```rust\n!x\n```".data),
        ("b.md".data, "```rust\nx\n```".data)])[1]? =
      some ("b.md".data, 0, "x".data) ∧
    ("//!x".data).isPrefixOf (("///!x".data).drop 1) = true ∧
    ("///x".data).isPrefixOf (("////x".data).drop 1) = true ∧
    foundFlag [("a.md".data, "```rust\n!x\n```".data),
        ("b.md".data, "```rust\nx\n```".data)]
      [("s.rs".data, "///!x".data)] 1 = false ∧
    foundFlag [("a.md".data, "```rust\n!x\n```".data),
        ("b.md".data, "```rust\nx\n```".data)]
      [("s.rs".data, "////x".data)] 1 = true := by
  decide

/-- Claim C6 (amended): both accepted comment-marker variants satisfy
presence detection equally, provided the occurrences of the examples
in each source file are pairwise non-overlapping: an occurrence of an
example using either marker choice (with exactly one following space
per line) sets the example's found-flag, so two files carrying the two
variants of the same occurrence give the same (true) flag. -/
theorem c6_marker_equivalence (docs : List (Str × Str)) (g p1 p2 : Nat)
    (ms1 ms2 : List Char) (s1 s2 : Str × Str)
    (hg : g < (rustExamples docs).length)
    (hm1 : OkMarkers ms1) (hm2 : OkMarkers ms2)
    (hl1 : ms1.length = (splitLines ((rustExamples docs).get ⟨g, hg⟩).2.2).length)
    (hl2 : ms2.length = (splitLines ((rustExamples docs).get ⟨g, hg⟩).2.2).length)
    (ho1 : (oneSpaceForm ms1 ((rustExamples docs).get ⟨g, hg⟩).2.2).isPrefixOf
      (s1.2.drop p1) = true)
    (ho2 : (oneSpaceForm ms2 ((rustExamples docs).get ⟨g, hg⟩).2.2).isPrefixOf
      (s2.2.drop p2) = true)
    (hd1 : disjB (pats docs) s1.2 = true)
    (hd2 : disjB (pats docs) s2.2 = true) :
    foundFlag docs [s1] g = foundFlag docs [s2] g ∧
    foundFlag docs [s1] g = true := by
  have h1 := presence_sets_flag docs [s1] g p1 ms1 s1 hg (List.mem_singleton.2 rfl)
    hm1 hl1 ho1 hd1
  have h2 := presence_sets_flag docs [s2] g p2 ms2 s2 hg (List.mem_singleton.2 rfl)
    hm2 hl2 ho2 hd2
  exact ⟨by rw [h1, h2], h1⟩

/-- Witness for C6 (amended): the example `"z"` occurs with the `//!`
marker in one file and with the `///` marker in another; both flags
agree (and are true). -/
theorem c6_marker_equivalence_witness :
    disjB (pats [("a.md".data, "```rust\nz\n```".data)]) ("//! z".data) = true ∧
    disjB (pats [("a.md".data, "```rust\nz\n```".data)]) ("/// z".data) = true ∧
    (foundFlag [("a.md".data, "```rust\nz\n```".data)]
        [(("a.rs".data : Str), ("//! z".data : Str))] 0 =
      foundFlag [("a.md".data, "```rust\nz\n```".data)]
        [(("b.rs".data : Str), ("/// z".data : Str))] 0 ∧
      foundFlag [("a.md".data, "```rust\nz\n```".data)]
        [(("a.rs".data : Str), ("//! z".data : Str))] 0 = true) :=
  ⟨by decide, by decide,
    c6_marker_equivalence [("a.md".data, "```rust\nz\n```".data)] 0 0 0 ['!'] ['/']
      ("a.rs".data, "//! z".data) ("b.rs".data, "/// z".data)
      (by decide) (by decide) (by decide) (by decide) (by decide)
      (by decide) (by decide) (by decide) (by decide)⟩

/-- Claim C7: the text extracted for each example is exactly the content
strictly between the rust-fence opener and the next fence closer
(trimmed when stored), multiple fenced blocks in one file are extracted
independently, and backtick characters inside a block (runs of at most
two, not adjacent to the closing fence) do not terminate the extraction
early. -/
theorem c7_fence_extraction (pre b1 mid b2 post : List Char) (path : Str)
    (hpre : noTick pre = true) (hmid : noTick mid = true) (hpost : noTick post = true)
    (hb1 : okBody b1 = true) (hb2 : okBody b2 = true) :
    scanMd (pre ++ (opener ++ (b1 ++ ([tick, tick, tick] ++
        (mid ++ (opener ++ (b2 ++ ([tick, tick, tick] ++ post)))))))) =
      [(pre.length, b1), (pre.length + 7 + b1.length + 3 + mid.length, b2)] ∧
    mdAssigns path (pre ++ (opener ++ (b1 ++ ([tick, tick, tick] ++
        (mid ++ (opener ++ (b2 ++ ([tick, tick, tick] ++ post)))))))) =
      [(strip b1, path, pre.length),
        (strip b2, path, pre.length + 7 + b1.length + 3 + mid.length)] := by
  have h := scanMd_two_blocks pre b1 mid b2 post hpre hmid hpost hb1 hb2
  refine ⟨h, ?_⟩
  unfold mdAssigns
  rw [h]
  rfl

/-- Witness for C7: a document whose first block contains single and
double backticks inside the body. -/
theorem c7_fence_extraction_witness :
    (noTick ("# t\n".data) = true ∧ okBody ("\nlet a = `1`;\nx``y\n".data) = true ∧
      okBody ("\nb2\n".data) = true) ∧
    (scanMd (("# t\n".data) ++ (opener ++ (("\nlet a = `1`;\nx``y\n".data) ++
        ([tick, tick, tick] ++ (("\nmid\n".data) ++ (opener ++ (("\nb2\n".data) ++
          ([tick, tick, tick] ++ ("\ntail".data)))))))) ) =
      [(("# t\n".data).length, "\nlet a = `1`;\nx``y\n".data),
        (("# t\n".data).length + 7 + ("\nlet a = `1`;\nx``y\n".data).length + 3 +
          ("\nmid\n".data).length, "\nb2\n".data)] ∧
      mdAssigns ("d.md".data) (("# t\n".data) ++ (opener ++
          (("\nlet a = `1`;\nx``y\n".data) ++ ([tick, tick, tick] ++
            (("\nmid\n".data) ++ (opener ++ (("\nb2\n".data) ++
              ([tick, tick, tick] ++ ("\ntail".data))))))))) =
        [(strip ("\nlet a = `1`;\nx``y\n".data), "d.md".data, ("# t\n".data).length),
          (strip ("\nb2\n".data), "d.md".data,
            ("# t\n".data).length + 7 + ("\nlet a = `1`;\nx``y\n".data).length + 3 +
              ("\nmid\n".data).length)]) :=
  ⟨by decide,
    c7_fence_extraction ("# t\n".data) ("\nlet a = `1`;\nx``y\n".data)
      ("\nmid\n".data) ("\nb2\n".data) ("\ntail".data) ("d.md".data)
      (by decide) (by decide) (by decide) (by decide) (by decide)⟩

/-- Claim C8, counterexample: the claim fails as stated. With zero
examples the Pattern Compiler joins zero alternatives, producing the
empty pattern string, and under the pattern semantics the empty
pattern does match source text (a zero-width match at any position),
contradicting "a pattern that can never match any source text". -/
theorem c8_empty_counterexample :
    rustExamples [("a.md".data, "no fences here".data)] = [] ∧
    combinedPat (rustExamples [("a.md".data, "no fences here".data)]) = [] ∧
    matchCombinedAt (pats [("a.md".data, "no fences here".data)])
      ("fn main()".data) 0 = true := by
  decide

/-- Claim C8 (amended): when the Ordered Example List is empty the
compiler yields the empty pattern string — a valid pattern that matches
the empty string at every position — with zero capture groups, so the
source scan records no groups and no found-flag is ever set. -/
theorem c8_empty_pattern (s : List Char) (p : Nat) :
    combinedPat ([] : List (Str × Nat × Str)) = [] ∧
    countGroups (combinedPat ([] : List (Str × Nat × Str))) = 0 ∧
    matchCombinedAt (patsOf []) s p = true ∧
    scanGroups (patsOf []) s = [] := by
  refine ⟨rfl, rfl, ?_, ?_⟩
  · unfold matchCombinedAt combinedLang patsOf
    simp [List.isPrefixOf]
  · unfold scanGroups patsOf
    exact scanGroupsF_nil_pats _ _

/-- Claim C9: when the documentation scan yields zero examples, the run
prints no missing-example report and no summary line, and exits with
status 0, regardless of the contents of the source tree. -/
theorem c9_empty_input (docs files : List (Str × Str))
    (h : rustExamples docs = []) :
    reportOut docs files = [] ∧ summaryOut docs files = none ∧
      exitCode docs files = 0 := by
  have hm : missingIdx docs files = [] := by
    unfold missingIdx
    rw [h]
    rfl
  have hb : badCount docs files = 0 := by
    unfold badCount
    rw [hm]
    rfl
  refine ⟨?_, ?_, ?_⟩
  · unfold reportOut
    rw [hm]
    rfl
  · unfold summaryOut
    rw [hb]
    rfl
  · unfold exitCode
    rw [hb]
    rfl

/-- Witness for C9: a documentation tree with no fenced rust block and a
non-empty source tree. -/
theorem c9_empty_input_witness :
    rustExamples [("a.md".data, "plain text".data)] = [] ∧
    (reportOut [("a.md".data, "plain text".data)]
        [("x.rs".data, "fn f() 0".data)] = [] ∧
      summaryOut [("a.md".data, "plain text".data)]
        [("x.rs".data, "fn f() 0".data)] = none ∧
      exitCode [("a.md".data, "plain text".data)]
        [("x.rs".data, "fn f() 0".data)] = 0) :=
  ⟨by decide,
    c9_empty_input [("a.md".data, "plain text".data)]
      [("x.rs".data, "fn f() 0".data)] (by decide)⟩

/-- Claim C10: the per-example pattern is unanchored at its boundaries
but column-anchored in its interior. Any matched form occurring after
an arbitrary prefix (so also mid-line) and before arbitrary trailing
text matches there; every newline inside a matched form is followed
immediately by the `//` of the next marker (no leading whitespace);
and concretely, a marker starting mid-line with trailing characters
after the last line still sets the flag, while an indented
continuation line does not. -/
theorem c10_anchoring :
    (∀ (e : Str) (pre post f : List Char), f ∈ exForms e →
      matchesExAt e (pre ++ f ++ post) pre.length = true) ∧
    (∀ (e : Str) (f : List Char), f ∈ exForms e → nlOk f = true) ∧
    foundFlag [("a.md".data, "```rust\nab\n```".data)]
      [("x.rs".data, "fn f() //! abQ".data)] 0 = true ∧
    foundFlag [("a.md".data, "```rust\nab\ncd\n```".data)]
      [("x.rs".data, "//! ab\n //! cd".data)] 0 = false ∧
    foundFlag [("a.md".data, "```rust\nab\ncd\n```".data)]
      [("x.rs".data, "//! ab\n//! cd".data)] 0 = true :=
  ⟨fun _ pre post f hf => matchesExAt_of_mem hf,
    fun _ _ hf => exForms_nlOk hf, by decide, by decide, by decide⟩

/-- Witness for C10: the form `"//! ab"` of example `"ab"` matches after
the mid-line prefix `"fn f() "` and before the trailing `"Q"`. -/
theorem c10_anchoring_witness :
    ("//! ab".data ∈ exForms ("ab".data)) ∧
    matchesExAt ("ab".data) (("fn f() ".data) ++ ("//! ab".data) ++ ("Q".data))
      (("fn f() ".data).length) = true :=
  ⟨by decide,
    c10_anchoring.1 ("ab".data) ("fn f() ".data) ("Q".data) ("//! ab".data)
      (by decide)⟩

end Check
